import Mathlib

/-!
# will-it-scale: the harness of `main.c`

A shallow embedding of the orchestration code of `main.c`: the option checks,
the shared counter area, the assignment of workers to hardware units, the
launch phase with its start barrier, and the once-per-second measurement loop.

Modelling conventions.

* `unsigned long long` and `unsigned long` values are natural numbers below
  `2 ^ 64`; every arithmetic operation on them is reduced modulo `2 ^ 64`.
* `int` values are integers; `int` arithmetic is reduced into the two's
  complement range by `wrap_int`.  C leaves signed overflow undefined, so the
  theorems about `int` counters assume that the counters stay in range.
* What the environment supplies (the counters the workers write, the stop flag
  set by the signal handler, the results of system calls) is an explicit
  argument of the model.
-/

namespace WillItScale

/-! ## Constants of `main.c` -/

/-- The cap on the number of tasks, `#define MAX_TASKS 2048`. -/
def MAX_TASKS : Int := 2048

/-- The distance between two counter slots, `#define MAX_CACHELINE_SIZE 256`. -/
def MAX_CACHELINE_SIZE : Int := 256

/-- The warmup threshold, `#define WARMUP_ITERATIONS 5`. -/
def WARMUP_ITERATIONS : Int := 5

/-- The modulus of 64-bit unsigned arithmetic. -/
def U64 : Nat := 2 ^ 64

/-- The value `-1ULL`, the largest `unsigned long long`. -/
def ULLONG_MAX : Nat := U64 - 1

/-- Reduction of an integer into the range of a 32-bit `int`. -/
def wrap_int (x : Int) : Int := (x + 2 ^ 31) % 2 ^ 32 - 2 ^ 31

/-- Conversion of an `int` to a 64-bit unsigned value. -/
def to_u64 (x : Int) : Nat := (x % 2 ^ 64).toNat

/-! ## Console output -/

/-- The lines `main` prints on standard output after the launch phase. -/
inductive Line where
  /-- The line `testcase:%s`. -/
  | testcase (description : String)
  /-- The line `warmup`. -/
  | warmup
  /-- The verbose line `%4d -> %llu` of one worker. -/
  | worker (i : Int) (diff : Nat)
  /-- The line `min:%llu max:%llu total:%llu` of one tick. -/
  | tick (min max sum : Nat)
  /-- The line `measurement`. -/
  | measurement
  /-- The line `average:%llu`. -/
  | average (avg : Nat)
  deriving DecidableEq, Repr

/-- The text of a line, as `printf` formats it (without the newline). -/
def Line.render : Line → String
  | .testcase d => "testcase:" ++ d
  | .warmup => "warmup"
  | .worker i diff =>
      let digits := toString i
      String.mk (List.replicate (4 - digits.length) ' ') ++ digits ++ " -> " ++ toString diff
  | .tick mn mx sum => "min:" ++ toString mn ++ " max:" ++ toString mx ++ " total:" ++ toString sum
  | .measurement => "measurement"
  | .average avg => "average:" ++ toString avg

/-! ## The measurement loop (`main`, lines 466-509) -/

/-- The locals of one pass of the `for` loop over the workers. -/
structure TickAcc where
  /-- The local `sum`. -/
  sum : Nat
  /-- The local `min`. -/
  min : Nat
  /-- The local `max`. -/
  max : Nat
  /-- The array `prev`. -/
  prev : Nat → Nat
  /-- The verbose lines printed so far in this tick. -/
  out : List Line

/-- The body of `for (i = 0; i < opt_tasks; i++)` in the measurement loop:
`results i` is the value read from `*(results[i])`. -/
def sample_worker (verbose : Bool) (results : Nat → Nat) (a : TickAcc) (i : Nat) : TickAcc :=
  let val := results i
  let diff := (val + U64 - a.prev i) % U64
  { sum := (a.sum + diff) % U64
    min := if diff < a.min then diff else a.min
    max := if diff > a.max then diff else a.max
    prev := fun j => if j = i then val else a.prev j
    out := if verbose then a.out ++ [Line.worker i diff] else a.out }

/-- The whole `for` loop over the workers of one tick, started from
`sum = 0, min = -1ULL, max = 0`. -/
def tick_stats (verbose : Bool) (opt_tasks : Int) (results : Nat → Nat) (prev : Nat → Nat) :
    TickAcc :=
  (List.range opt_tasks.toNat).foldl (sample_worker verbose results)
    { sum := 0, min := ULLONG_MAX, max := 0, prev := prev, out := [] }

/-- The variables of `main` that the measurement loop reads and writes. -/
structure LoopState where
  /-- The counter `iterations`. -/
  iterations : Int
  /-- The array `prev`, the counter values of the previous tick. -/
  prev : Nat → Nat
  /-- The accumulator `total`. -/
  total : Nat
  /-- Everything printed so far. -/
  out : List Line

/-- How the measurement loop was left. -/
inductive LoopExit where
  /-- The loop is still running: the observed ticks are used up. -/
  | running
  /-- The loop test saw `should_bail` set. -/
  | bailed
  /-- The target was reached: `average` was printed and the loop was left
  (`break` in the process build, `return 0` in the thread build). -/
  | finished
  deriving DecidableEq, Repr

/-- One pass of the body of `while (!should_bail)`.  The flag in the result
tells whether the pass took the branch that prints the average and leaves the
loop. -/
def tick (verbose : Bool) (opt_tasks opt_iterations : Int) (results : Nat → Nat)
    (st : LoopState) : LoopState × Bool :=
  let a := tick_stats verbose opt_tasks results st.prev
  let out1 := st.out ++ a.out ++ [Line.tick a.min a.max a.sum]
  let out2 := if st.iterations = WARMUP_ITERATIONS then out1 ++ [Line.measurement] else out1
  let total := if st.iterations > WARMUP_ITERATIONS then (st.total + a.sum) % U64 else st.total
  let iterations := wrap_int (st.iterations + 1)
  let leave : Bool :=
    decide (opt_iterations ≠ 0 ∧ iterations > wrap_int (opt_iterations + WARMUP_ITERATIONS))
  ({ iterations := iterations, prev := a.prev, total := total,
     out := if leave then out2 ++ [Line.average (total / to_u64 opt_iterations)] else out2 },
   leave)

/-- The loop `while (!should_bail) { ... }`.  `samples k i` is the value of
worker `i`'s counter read in pass `k`, and `bail k` the value of `should_bail`
at the loop test before pass `k`; `fuel` bounds the number of passes that are
observed and `k` is the number of passes already made. -/
def measurement_loop (verbose : Bool) (opt_tasks opt_iterations : Int)
    (samples : Nat → Nat → Nat) (bail : Nat → Bool) :
    Nat → Nat → LoopState → LoopState × LoopExit
  | 0, _, st => (st, LoopExit.running)
  | fuel + 1, k, st =>
    if bail k then (st, LoopExit.bailed)
    else
      match tick verbose opt_tasks opt_iterations (samples k) st with
      | (st1, true) => (st1, LoopExit.finished)
      | (st1, false) => measurement_loop verbose opt_tasks opt_iterations samples bail fuel (k + 1) st1

/-- The state in which `main` enters the measurement loop: the locals as
initialised, and the two lines printed just before the loop. -/
def loop_start (description : String) : LoopState :=
  { iterations := 0, prev := fun _ => 0, total := 0,
    out := [Line.testcase description, Line.warmup] }

/-- The reporting phase of `main`: the two header lines and the measurement
loop, observed for `fuel` passes. -/
def report (description : String) (verbose : Bool) (opt_tasks opt_iterations : Int)
    (samples : Nat → Nat → Nat) (bail : Nat → Bool) (fuel : Nat) : LoopState × LoopExit :=
  measurement_loop verbose opt_tasks opt_iterations samples bail fuel 0 (loop_start description)

/-! ## Quantities the statements about the measurement loop refer to -/

/-- The counter value of worker `i` at the tick before tick `k`; zero before
the first tick. -/
def spec_prev (samples : Nat → Nat → Nat) (k i : Nat) : Nat :=
  if k = 0 then 0 else samples (k - 1) i

/-- The delta of worker `i` in tick `k`: the current sample minus the previous
one, as a 64-bit unsigned difference. -/
def spec_delta (samples : Nat → Nat → Nat) (k i : Nat) : Nat :=
  (samples k i + U64 - spec_prev samples k i) % U64

/-- The deltas of workers `0 .. n - 1` in tick `k`. -/
def spec_deltas (n : Nat) (samples : Nat → Nat → Nat) (k : Nat) : List Nat :=
  (List.range n).map (spec_delta samples k)

/-- The tick sum of tick `k`: the sum of its deltas modulo `2 ^ 64`. -/
def spec_tick_sum (n : Nat) (samples : Nat → Nat → Nat) (k : Nat) : Nat :=
  (spec_deltas n samples k).sum % U64

/-- The sum of the tick sums of the `m` ticks `first, first + 1, ...`. -/
def spec_sum_from (n : Nat) (samples : Nat → Nat → Nat) (first m : Nat) : Nat :=
  ((List.range m).map (fun j => spec_tick_sum n samples (first + j))).sum

/-- The tick lines among the printed lines, in order. -/
def tick_lines (out : List Line) : List Line :=
  out.filter (fun l => match l with
    | Line.tick _ _ _ => true
    | _ => false)

/-- The update of `min` in the loop body. -/
def step_min (m d : Nat) : Nat := if d < m then d else m

/-- The update of `max` in the loop body. -/
def step_max (m d : Nat) : Nat := if d > m then d else m

/-- The deltas the loop over the workers computes against the array `prev`. -/
def diffs (n : Nat) (results prev : Nat → Nat) : List Nat :=
  (List.range n).map (fun i => (results i + U64 - prev i) % U64)

/-- What tick `k` prints: the verbose lines, the tick line, and the line
`measurement` after the tick line of tick 5. -/
def spec_tick_out (verbose : Bool) (n : Nat) (samples : Nat → Nat → Nat) (k : Nat) : List Line :=
  (if verbose then
      (List.range n).map (fun (i : Nat) => Line.worker (i : Int) (spec_delta samples k i))
    else [])
    ++ [Line.tick ((spec_deltas n samples k).foldl step_min ULLONG_MAX)
          ((spec_deltas n samples k).foldl step_max 0) (spec_tick_sum n samples k)]
    ++ (if k = 5 then [Line.measurement] else [])

/-- Everything printed up to and including tick `k - 1`. -/
def spec_out (description : String) (verbose : Bool) (n : Nat) (samples : Nat → Nat → Nat) :
    Nat → List Line
  | 0 => [Line.testcase description, Line.warmup]
  | k + 1 => spec_out description verbose n samples k ++ spec_tick_out verbose n samples k

/-- The tick line of tick `k`, in terms of the samples. -/
def spec_tick_line (n : Nat) (samples : Nat → Nat → Nat) (k : Nat) : Line :=
  Line.tick ((spec_deltas n samples k).foldl step_min ULLONG_MAX)
    ((spec_deltas n samples k).foldl step_max 0) (spec_tick_sum n samples k)

/-- The state of the loop after `k` passes, in terms of the samples. -/
structure LoopInv (description : String) (verbose : Bool) (n : Nat) (samples : Nat → Nat → Nat)
    (k : Nat) (st : LoopState) : Prop where
  /-- The counter `iterations` is the number of passes. -/
  iterations : st.iterations = (k : Int)
  /-- The array `prev` holds the samples of the last pass. -/
  prev : ∀ i, i < n → st.prev i = spec_prev samples k i
  /-- The accumulator holds the tick sums of the ticks from tick 6 on. -/
  total : st.total = spec_sum_from n samples 6 (k - 6) % U64
  /-- The output is that of the `k` passes. -/
  out : st.out = spec_out description verbose n samples k

/-! ## The shared area (`initialise_shared_area`, lines 40-74; `main`, lines 343-345) -/

/-- The statement `size = (size + page_size-1) & ~(page_size-1)` of
`initialise_shared_area`, for an `unsigned long size` and an `int page_size`:
the sum and the difference are taken in `unsigned long`, and the complement is
taken in `int` (where `~x = -x - 1`) and then converted to `unsigned long`. -/
def align_to_page (size : Nat) (page_size : Int) : Nat :=
  (((size + to_u64 page_size) % U64 + U64 - 1) % U64) &&& to_u64 (-(wrap_int (page_size - 1)) - 1)

/-- The argument `opt_tasks * MAX_CACHELINE_SIZE` of `initialise_shared_area`:
an `int` product converted to `unsigned long`. -/
def requested_size (opt_tasks : Int) : Nat :=
  to_u64 (wrap_int (opt_tasks * MAX_CACHELINE_SIZE))

/-- The byte size of the shared area that `initialise_shared_area` maps. -/
def shared_area_size (opt_tasks page_size : Int) : Nat :=
  align_to_page (requested_size opt_tasks) page_size

/-- The byte offset in the shared area of `results[i] = &m[i * MAX_CACHELINE_SIZE]`. -/
def slot_offset (i : Int) : Int :=
  wrap_int (i * MAX_CACHELINE_SIZE)

/-- The size in bytes of one counter, `sizeof(unsigned long long)`. -/
def COUNTER_SIZE : Int := 8

/-! ## The hardware unit of a worker (`main`, lines 414-416) -/

/-- The index `i % n` passed to `hwloc_get_obj_by_type`: the remainder of the
`int` division, which truncates towards zero. -/
def unit_index (i n : Int) : Int :=
  Int.tmod i n

/-! ## The worker side of the start barrier (`testcase_trampoline`, lines 101-112) -/

/-- What a worker does, as far as the harness sees it. -/
inductive WorkerEvent where
  /-- A call of `poll` on the read end of the pipe returned `ret`; `eintr`
  tells whether `errno` is `EINTR`. -/
  | poll (ret : Int) (eintr : Bool)
  /-- The call `args->func(args->arg1, args->arg2)` of the workload. -/
  | workload (arg1 : Int) (arg2 : Int)
  deriving DecidableEq, Repr

/-- The structure `struct args`: the counter slot (as a byte offset in the
shared area) and the worker index.  The field `func` is always `testcase` and
`poll_fd` always the read end of the pipe. -/
structure Args where
  /-- The field `arg1`, the counter slot. -/
  arg1 : Int
  /-- The field `arg2`, the worker index. -/
  arg2 : Int
  deriving DecidableEq, Repr

/-- The function `testcase_trampoline`: `polls j` is what the `j`-th call of
`poll` returns (the value and whether `errno` is `EINTR`); `fuel` bounds the
number of calls of `poll` that are observed and `j` counts the calls made. -/
def testcase_trampoline (args : Args) (polls : Nat → Int × Bool) : Nat → Nat → List WorkerEvent
  | 0, _ => []
  | fuel + 1, j =>
    WorkerEvent.poll (polls j).1 (polls j).2 ::
      (if (polls j).1 = -1 ∧ (polls j).2 = true then
        testcase_trampoline args polls fuel (j + 1)
      else
        [WorkerEvent.workload args.arg1 args.arg2])

/-! ## The options (`main`, lines 300-341) -/

/-- What one call of `GETOPT` yields, with `atoi` applied to the argument.
The option `-h` and every unknown option reach the `default` label. -/
inductive Opt where
  /-- The option `-m`. -/
  | m
  /-- The option `-t TASKS`, with `atoi(optarg)`. -/
  | t (arg : Int)
  /-- The option `-s ITERATIONS`, with `atoi(optarg)`. -/
  | s (arg : Int)
  /-- The option `-v`. -/
  | v
  /-- The option `-n`. -/
  | n
  /-- The option `-h` or an option that `GETOPT` does not know. -/
  | other
  deriving DecidableEq, Repr

/-- The variables of `main` that the options set. -/
structure Options where
  /-- The local `opt_tasks`. -/
  opt_tasks : Int
  /-- The local `opt_iterations`. -/
  opt_iterations : Int
  /-- The local `smt_affinity`. -/
  smt_affinity : Bool
  /-- The global `use_affinity`. -/
  use_affinity : Bool
  /-- The local `verbose`. -/
  verbose : Bool
  deriving DecidableEq, Repr

/-- The initial values of the option variables. -/
def Options.initial : Options :=
  { opt_tasks := 1, opt_iterations := 0, smt_affinity := false, use_affinity := true,
    verbose := false }

/-- The two tests of `case 't'`: `none` when the count is accepted, the exit
code when `main` returns. -/
def check_tasks (opt_tasks : Int) : Option Nat :=
  if opt_tasks > MAX_TASKS then some 1
  else if opt_tasks = 0 then some 1
  else none

/-- The loop `while ((opt = GETOPT(...)) != -1) switch (opt) ...`: the option
variables after all options, or the exit code with which `main` ends. -/
def parse_options : Options → List Opt → Except Nat Options
  | o, [] => Except.ok o
  | o, Opt.m :: rest => parse_options { o with smt_affinity := true } rest
  | o, Opt.t arg :: rest =>
    match check_tasks arg with
    | some code => Except.error code
    | none => parse_options { o with opt_tasks := arg } rest
  | o, Opt.s arg :: rest => parse_options { o with opt_iterations := arg } rest
  | o, Opt.v :: rest => parse_options { o with verbose := true } rest
  | o, Opt.n :: rest => parse_options { o with use_affinity := false } rest
  | _, Opt.other :: _ => Except.error 1

/-! ## The run of `main` -/

/-- What the environment does in one run: the build, and the results of the
calls that can fail. -/
structure Env where
  /-- Whether `THREADS` is defined (the thread build). -/
  THREADS : Bool
  /-- Whether `HAVE_HWLOC` is set. -/
  HAVE_HWLOC : Bool
  /-- Whether arguments are left after the options (`optind < argc`). -/
  extra_args : Bool
  /-- What `getpagesize()` returns. -/
  page_size : Int
  /-- Whether `mkstemp` fails. -/
  mkstemp_fails : Bool
  /-- Whether `ftruncate` fails. -/
  ftruncate_fails : Bool
  /-- Whether `mmap` fails. -/
  mmap_fails : Bool
  /-- Whether `pipe` fails. -/
  pipe_fails : Bool
  /-- Thread build: whether the `fork` of the controller fails. -/
  fork_fails : Bool
  /-- What `hwloc_get_nbobjs_by_type` returns. -/
  nbobjs : Int
  /-- Whether `malloc` of the array `args` fails. -/
  malloc_fails : Bool
  /-- Whether `hwloc_topology_dup` fails for worker `i`. -/
  topology_dup_fails : Nat → Bool
  /-- Whether `hwloc_bitmap_dup` fails for worker `i`. -/
  bitmap_dup_fails : Nat → Bool
  /-- Whether `hwloc_bitmap_alloc` fails for worker `i`. -/
  bitmap_alloc_fails : Nat → Bool
  /-- Whether `hwloc_get_cpubind` fails for worker `i`. -/
  get_cpubind_fails : Nat → Bool
  /-- Whether `hwloc_set_cpubind` to the unit of worker `i` fails. -/
  set_cpubind_fails : Nat → Bool
  /-- Process build: whether the `fork` of worker `i` fails. -/
  task_fork_fails : Nat → Bool
  /-- Whether `hwloc_set_cpubind` back to the old binding fails after worker `i`. -/
  restore_cpubind_fails : Nat → Bool
  /-- Whether the `write` of the barrier byte fails. -/
  write_fails : Bool
  /-- The string `testcase_description`. -/
  description : String
  /-- The counter values read in each pass of the measurement loop. -/
  samples : Nat → Nat → Nat
  /-- Whether `SIGINT` has arrived before pass `k` of the measurement loop. -/
  interrupted : Nat → Bool
  /-- The number of passes of the measurement loop that are observed. -/
  fuel : Nat

/-- The steps of `main` that the statements refer to. -/
inductive Event where
  /-- The call of `initialise_shared_area` with the requested size. -/
  | initialise_shared_area (size : Nat)
  /-- The shared area of this byte size is mapped and zeroed. -/
  | shared_area (size : Nat)
  /-- The successful call of `pipe`. -/
  | pipe
  /-- The call `testcase_prepare(opt_tasks)`. -/
  | testcase_prepare (nr_tasks : Nat)
  /-- Thread build: the successful `fork` of the controller. -/
  | fork_controller
  /-- The call `new_task_affinity(&args[i])` that creates worker `i`, with
  the unit the worker is bound to (`none` when no binding is applied). -/
  | new_task_affinity (args : Args) (unit : Option Int)
  /-- The successful `write` of one byte into the pipe. -/
  | barrier_write
  /-- A line printed on standard output. -/
  | print (l : Line)
  /-- The call of `kill_tasks`. -/
  | kill_tasks
  /-- The call of `testcase_cleanup`. -/
  | testcase_cleanup
  deriving DecidableEq, Repr

/-- How a process stands at the end of the observation. -/
inductive Status where
  /-- The process is still running. -/
  | running
  /-- The process has ended with this exit code. -/
  | exited (code : Nat)
  /-- The process was terminated by `SIGTERM`. -/
  | killed
  deriving DecidableEq, Repr

/-- The structure `args[i]` that the loop fills in for worker `i`. -/
def worker_args (i : Nat) : Args :=
  { arg1 := slot_offset (i : Int), arg2 := (i : Int) }

/-- The hardware unit worker `i` is bound to: unit `i % n` when the build has
hwloc and affinity is in use, none otherwise. -/
def worker_unit (env : Env) (o : Options) (i : Nat) : Option Int :=
  if env.HAVE_HWLOC && o.use_affinity then some (unit_index (i : Int) env.nbobjs) else none

/-- One pass of the loop `for (i = 0; i < opt_tasks; i++)` that creates the
workers (lines 402-456): the events of the pass, and the exit code when the
pass ends `main`. -/
def spawn_worker (env : Env) (o : Options) (i : Nat) : List Event × Option Nat :=
  if env.HAVE_HWLOC then
    if env.topology_dup_fails i then ([], some 1)
    else if env.bitmap_dup_fails i then ([], some 1)
    else if env.bitmap_alloc_fails i then ([], some 1)
    else if env.get_cpubind_fails i then ([], some 1)
    else if o.use_affinity && env.set_cpubind_fails i then ([], some 1)
    else if !env.THREADS && env.task_fork_fails i then ([], some 1)
    else if o.use_affinity && env.restore_cpubind_fails i then
      ([Event.new_task_affinity (worker_args i) (worker_unit env o i)], some 1)
    else ([Event.new_task_affinity (worker_args i) (worker_unit env o i)], none)
  else
    if !env.THREADS && env.task_fork_fails i then ([], some 1)
    else ([Event.new_task_affinity (worker_args i) (worker_unit env o i)], none)

/-- The loop that creates the workers, over the indices still to do. -/
def spawn_workers (env : Env) (o : Options) : List Nat → List Event × Option Nat
  | [] => ([], none)
  | i :: rest =>
    match spawn_worker env o i with
    | (ev, some code) => (ev, some code)
    | (ev, none) => (ev ++ (spawn_workers env o rest).1, (spawn_workers env o rest).2)

/-- Lines 379-525 of `main`: topology discovery, creation of the workers,
release of the barrier, the measurement loop and the teardown.  In the thread
build this part runs in the forked controller, where `should_bail` is never
set: there `SIGINT` makes the invoking process send `SIGTERM` to the
controller. -/
def launch_and_measure (env : Env) (o : Options) : List Event × Status :=
  if env.HAVE_HWLOC && decide (env.nbobjs = 0) then ([], Status.exited 1)
  else if env.HAVE_HWLOC && decide (env.nbobjs < 1) then ([], Status.exited 1)
  else if env.malloc_fails then ([], Status.exited 1)
  else
    match spawn_workers env o (List.range o.opt_tasks.toNat) with
    | (ev, some code) => (ev, Status.exited code)
    | (ev, none) =>
      if env.write_fails then (ev, Status.exited 1)
      else
        let r := report env.description o.verbose o.opt_tasks o.opt_iterations
          env.samples env.interrupted env.fuel
        let ev2 := ev ++ [Event.barrier_write] ++ r.1.out.map Event.print
        match r.2 with
        | LoopExit.running => (ev2, Status.running)
        | LoopExit.finished =>
          if env.THREADS then (ev2, Status.exited 0)
          else (ev2 ++ [Event.kill_tasks, Event.testcase_cleanup], Status.exited 0)
        | LoopExit.bailed =>
          if env.THREADS then (ev2, Status.killed)
          else (ev2 ++ [Event.kill_tasks, Event.testcase_cleanup], Status.exited 0)

/-- The result of a run of `main`. -/
structure Outcome where
  /-- How the invoking process stands. -/
  status : Status
  /-- Thread build: how the forked controller stands. -/
  controller : Option Status
  /-- The events of the run, in order. -/
  events : List Event
  deriving DecidableEq, Repr

/-- The function `main`, for the options `opts` in the environment `env`. -/
def main (env : Env) (opts : List Opt) : Outcome :=
  match parse_options Options.initial opts with
  | Except.error code => { status := Status.exited code, controller := none, events := [] }
  | Except.ok o =>
    if env.extra_args then { status := Status.exited 1, controller := none, events := [] }
    else if o.smt_affinity && !o.use_affinity then
      { status := Status.exited 1, controller := none, events := [] }
    else
      let ev0 := [Event.initialise_shared_area (requested_size o.opt_tasks)]
      if env.mkstemp_fails || env.ftruncate_fails || env.mmap_fails then
        { status := Status.exited 1, controller := none, events := ev0 }
      else
        let ev1 := ev0 ++ [Event.shared_area (shared_area_size o.opt_tasks env.page_size)]
        if env.pipe_fails then { status := Status.exited 1, controller := none, events := ev1 }
        else
          let ev2 := ev1 ++ [Event.pipe, Event.testcase_prepare (to_u64 o.opt_tasks)]
          if env.THREADS then
            if env.fork_fails then
              { status := Status.exited 1, controller := none, events := ev2 }
            else
              let r := launch_and_measure env o
              match r.2 with
              | Status.running =>
                { status := Status.running, controller := some Status.running,
                  events := ev2 ++ [Event.fork_controller] ++ r.1 }
              | st =>
                { status := Status.exited 0, controller := some st,
                  events := ev2 ++ [Event.fork_controller] ++ r.1 ++ [Event.testcase_cleanup] }
          else
            let r := launch_and_measure env o
            { status := r.2, controller := none, events := ev2 ++ r.1 }

/-! ## Notions the statements about `main` refer to -/

/-- No setup step of the run fails: the arguments are well formed and every
call that `main` checks succeeds. -/
structure Env.setup_succeeds (env : Env) (o : Options) : Prop where
  /-- No argument is left after the options. -/
  extra_args : env.extra_args = false
  /-- The affinity flags do not conflict. -/
  flags : (o.smt_affinity && !o.use_affinity) = false
  /-- The call of `mkstemp` succeeds. -/
  mkstemp : env.mkstemp_fails = false
  /-- The call of `ftruncate` succeeds. -/
  ftruncate : env.ftruncate_fails = false
  /-- The call of `mmap` succeeds. -/
  mmap : env.mmap_fails = false
  /-- The call of `pipe` succeeds. -/
  pipe : env.pipe_fails = false
  /-- The `fork` of the controller succeeds. -/
  fork : env.fork_fails = false
  /-- With hwloc, at least one unit is found. -/
  nbobjs : env.HAVE_HWLOC = true → 1 ≤ env.nbobjs
  /-- The call of `malloc` succeeds. -/
  malloc : env.malloc_fails = false
  /-- The call of `hwloc_topology_dup` succeeds for every worker. -/
  topology_dup : ∀ i, env.topology_dup_fails i = false
  /-- The call of `hwloc_bitmap_dup` succeeds for every worker. -/
  bitmap_dup : ∀ i, env.bitmap_dup_fails i = false
  /-- The call of `hwloc_bitmap_alloc` succeeds for every worker. -/
  bitmap_alloc : ∀ i, env.bitmap_alloc_fails i = false
  /-- The call of `hwloc_get_cpubind` succeeds for every worker. -/
  get_cpubind : ∀ i, env.get_cpubind_fails i = false
  /-- The call of `hwloc_set_cpubind` succeeds for every worker. -/
  set_cpubind : ∀ i, env.set_cpubind_fails i = false
  /-- The `fork` of every worker succeeds. -/
  task_fork : ∀ i, env.task_fork_fails i = false
  /-- The binding is restored after every worker. -/
  restore_cpubind : ∀ i, env.restore_cpubind_fails i = false
  /-- The `write` of the barrier byte succeeds. -/
  write : env.write_fails = false

/-- The events of the launch phase: the creation of a worker and the release
of the barrier. -/
def is_launch_event : Event → Bool
  | Event.new_task_affinity _ _ => true
  | Event.barrier_write => true
  | _ => false

/-- An environment in which no call fails, with pages of 4096 bytes, for the
given build, unit count, counter samples and number of observed passes. -/
def Env.quiet (threads hwloc : Bool) (nbobjs : Int) (samples : Nat → Nat → Nat) (fuel : Nat) :
    Env :=
  { THREADS := threads
    HAVE_HWLOC := hwloc
    extra_args := false
    page_size := 4096
    mkstemp_fails := false
    ftruncate_fails := false
    mmap_fails := false
    pipe_fails := false
    fork_fails := false
    nbobjs := nbobjs
    malloc_fails := false
    topology_dup_fails := fun _ => false
    bitmap_dup_fails := fun _ => false
    bitmap_alloc_fails := fun _ => false
    get_cpubind_fails := fun _ => false
    set_cpubind_fails := fun _ => false
    task_fork_fails := fun _ => false
    restore_cpubind_fails := fun _ => false
    write_fails := false
    description := "vfsmix"
    samples := samples
    interrupted := fun _ => false
    fuel := fuel }

/-- The workers a run creates, in order: for each call of `new_task_affinity`
the worker index `arg2` and the unit the worker is bound to. -/
def creations (events : List Event) : List (Int × Option Int) :=
  events.filterMap (fun ev => match ev with
    | Event.new_task_affinity args unit => some (args.arg2, unit)
    | _ => none)

end WillItScale

/-! # Theorems -/

namespace WillItScale

/-! ## Integer conversions -/

theorem wrap_int_of_range (x : Int) (hlo : -2 ^ 31 ≤ x) (hhi : x < 2 ^ 31) : wrap_int x = x := by
  unfold wrap_int
  omega

theorem to_u64_natCast (n : Nat) (h : n < 2 ^ 64) : to_u64 (n : Int) = n := by
  unfold to_u64
  omega

theorem sub_six_step (k : Nat) (h : 5 < k) : k + 1 - 6 = (k - 6) + 1 ∧ 6 + (k - 6) = k := by
  omega

theorem sub_six_stay (k : Nat) (h : ¬ 5 < k) : k + 1 - 6 = k - 6 := by
  omega

theorem int_gt_five (k : Nat) : ((k : Int) > 5) ↔ 5 < k := by
  omega

theorem int_eq_five (k : Nat) : ((k : Int) = 5) ↔ k = 5 := by
  omega

/-! ## One tick: the loop over the workers -/

theorem diffs_succ (n : Nat) (results prev : Nat → Nat) :
    diffs (n + 1) results prev = diffs n results prev ++ [(results n + U64 - prev n) % U64] := by
  simp [diffs, List.range_succ]

theorem foldl_sample_worker (verbose : Bool) (results : Nat → Nat) (a : TickAcc) (n : Nat)
    (ha : a.sum < U64) :
    ((List.range n).foldl (sample_worker verbose results) a).sum
        = (a.sum + (diffs n results a.prev).sum) % U64
      ∧ ((List.range n).foldl (sample_worker verbose results) a).min
        = (diffs n results a.prev).foldl step_min a.min
      ∧ ((List.range n).foldl (sample_worker verbose results) a).max
        = (diffs n results a.prev).foldl step_max a.max
      ∧ ((List.range n).foldl (sample_worker verbose results) a).prev
        = (fun j => if j < n then results j else a.prev j)
      ∧ ((List.range n).foldl (sample_worker verbose results) a).out
        = a.out ++ (if verbose then
            (List.range n).map
              (fun (i : Nat) => Line.worker (i : Int) ((results i + U64 - a.prev i) % U64))
          else []) := by
  induction n with
  | zero =>
    refine ⟨?_, ?_, ?_, ?_, ?_⟩ <;> simp [diffs]
    exact (Nat.mod_eq_of_lt ha).symm
  | succ n ih =>
    obtain ⟨h1, h2, h3, h4, h5⟩ := ih
    rw [List.range_succ, List.foldl_append, diffs_succ]
    simp only [List.foldl_cons, List.foldl_nil, List.foldl_append, List.sum_append, List.sum_cons,
      List.sum_nil, List.map_append, List.map_cons, List.map_nil]
    have hp : ((List.range n).foldl (sample_worker verbose results) a).prev n = a.prev n := by
      rw [h4]; simp
    refine ⟨?_, ?_, ?_, ?_, ?_⟩
    · simp only [sample_worker, hp, h1, Nat.add_zero]
      rw [Nat.mod_add_mod, Nat.add_mod_mod, Nat.add_assoc]
      rw [← Nat.add_assoc a.sum, ← Nat.add_assoc a.sum, Nat.add_mod_mod]
    · simp only [sample_worker, hp, h2, step_min]
    · simp only [sample_worker, hp, h3, step_max]
    · simp only [sample_worker, h4]
      funext j
      by_cases hj : j = n
      · subst hj; simp
      · have : j < n + 1 ↔ j < n := by omega
        simp [hj, this]
    · simp only [sample_worker, hp, h5]
      cases verbose <;> simp

theorem tick_stats_eq (verbose : Bool) (opt_tasks : Int) (results prev : Nat → Nat) :
    (tick_stats verbose opt_tasks results prev).sum = (diffs opt_tasks.toNat results prev).sum % U64
      ∧ (tick_stats verbose opt_tasks results prev).min
        = (diffs opt_tasks.toNat results prev).foldl step_min ULLONG_MAX
      ∧ (tick_stats verbose opt_tasks results prev).max
        = (diffs opt_tasks.toNat results prev).foldl step_max 0
      ∧ (tick_stats verbose opt_tasks results prev).prev
        = (fun j => if j < opt_tasks.toNat then results j else prev j)
      ∧ (tick_stats verbose opt_tasks results prev).out
        = (if verbose then
            (List.range opt_tasks.toNat).map
              (fun (i : Nat) => Line.worker (i : Int) ((results i + U64 - prev i) % U64))
          else []) := by
  have h := foldl_sample_worker verbose results
    { sum := 0, min := ULLONG_MAX, max := 0, prev := prev, out := [] } opt_tasks.toNat
    (by simp [U64])
  simpa [tick_stats] using h

theorem foldl_step_min_le_init (l : List Nat) (m : Nat) : l.foldl step_min m ≤ m := by
  induction l generalizing m with
  | nil => simp
  | cons d l ih =>
    simp only [List.foldl_cons]
    refine le_trans (ih _) ?_
    unfold step_min
    split <;> omega

theorem foldl_step_min_le (l : List Nat) (m d : Nat) (hd : d ∈ l) : l.foldl step_min m ≤ d := by
  induction l generalizing m with
  | nil => simp at hd
  | cons e l ih =>
    simp only [List.foldl_cons]
    rcases List.mem_cons.mp hd with h | h
    · subst h
      refine le_trans (foldl_step_min_le_init l _) ?_
      unfold step_min
      split <;> omega
    · exact ih _ h

theorem foldl_step_min_mem (l : List Nat) (m : Nat) :
    l.foldl step_min m = m ∨ l.foldl step_min m ∈ l := by
  induction l generalizing m with
  | nil => simp
  | cons e l ih =>
    simp only [List.foldl_cons]
    rcases ih (step_min m e) with h | h
    · rw [h]
      unfold step_min
      split
      · right; simp
      · left; rfl
    · right; exact List.mem_cons_of_mem _ h

theorem foldl_step_max_ge_init (l : List Nat) (m : Nat) : m ≤ l.foldl step_max m := by
  induction l generalizing m with
  | nil => simp
  | cons d l ih =>
    simp only [List.foldl_cons]
    refine le_trans ?_ (ih _)
    unfold step_max
    split <;> omega

theorem foldl_step_max_ge (l : List Nat) (m d : Nat) (hd : d ∈ l) : d ≤ l.foldl step_max m := by
  induction l generalizing m with
  | nil => simp at hd
  | cons e l ih =>
    simp only [List.foldl_cons]
    rcases List.mem_cons.mp hd with h | h
    · subst h
      refine le_trans ?_ (foldl_step_max_ge_init l _)
      unfold step_max
      split <;> omega
    · exact ih _ h

theorem foldl_step_max_mem (l : List Nat) (m : Nat) :
    l.foldl step_max m = m ∨ l.foldl step_max m ∈ l := by
  induction l generalizing m with
  | nil => simp
  | cons e l ih =>
    simp only [List.foldl_cons]
    rcases ih (step_max m e) with h | h
    · rw [h]
      unfold step_max
      split
      · right; simp
      · left; rfl
    · right; exact List.mem_cons_of_mem _ h

/-- The minimum the loop computes from a non-empty list of 64-bit values is
the least element of the list. -/
theorem foldl_step_min_least (l : List Nat) (hne : l ≠ []) (hl : ∀ d ∈ l, d < U64) :
    l.foldl step_min ULLONG_MAX ∈ l ∧ ∀ d ∈ l, l.foldl step_min ULLONG_MAX ≤ d := by
  refine ⟨?_, fun d hd => foldl_step_min_le l _ d hd⟩
  rcases foldl_step_min_mem l ULLONG_MAX with h | h
  · obtain ⟨e, he⟩ := List.exists_mem_of_ne_nil l hne
    have h1 := foldl_step_min_le l ULLONG_MAX e he
    have h2 := hl e he
    have : e = l.foldl step_min ULLONG_MAX := by
      rw [h] at h1 ⊢
      unfold ULLONG_MAX at h1 ⊢
      omega
    rw [← this]
    exact he
  · exact h

/-- The maximum the loop computes from a non-empty list is the greatest
element of the list. -/
theorem foldl_step_max_greatest (l : List Nat) (hne : l ≠ []) :
    l.foldl step_max 0 ∈ l ∧ ∀ d ∈ l, d ≤ l.foldl step_max 0 := by
  refine ⟨?_, fun d hd => foldl_step_max_ge l _ d hd⟩
  rcases foldl_step_max_mem l 0 with h | h
  · obtain ⟨e, he⟩ := List.exists_mem_of_ne_nil l hne
    have h1 := foldl_step_max_ge l 0 e he
    have : e = l.foldl step_max 0 := by omega
    rw [← this]
    exact he
  · exact h

/-! ## One pass of the measurement loop -/

theorem diffs_eq_spec_deltas (n : Nat) (samples : Nat → Nat → Nat) (k : Nat) (prev : Nat → Nat)
    (h : ∀ i, i < n → prev i = spec_prev samples k i) :
    diffs n (samples k) prev = spec_deltas n samples k := by
  unfold diffs spec_deltas
  apply List.map_congr_left
  intro i hi
  rw [h i (List.mem_range.mp hi)]
  rfl

theorem spec_sum_from_succ (n : Nat) (samples : Nat → Nat → Nat) (first m : Nat) :
    spec_sum_from n samples first (m + 1)
      = spec_sum_from n samples first m + spec_tick_sum n samples (first + m) := by
  simp [spec_sum_from, List.range_succ]

theorem tick_spec (description : String) (verbose : Bool) (opt_tasks T : Int)
    (samples : Nat → Nat → Nat) (k : Nat) (st : LoopState)
    (hinv : LoopInv description verbose opt_tasks.toNat samples k st)
    (hk : (k : Int) + 1 < 2 ^ 31) :
    ((tick verbose opt_tasks T (samples k) st).2 = true
        ↔ T ≠ 0 ∧ wrap_int (T + WARMUP_ITERATIONS) < (k : Int) + 1)
      ∧ (tick verbose opt_tasks T (samples k) st).1.iterations = ((k + 1 : Nat) : Int)
      ∧ (∀ i, i < opt_tasks.toNat →
          (tick verbose opt_tasks T (samples k) st).1.prev i = spec_prev samples (k + 1) i)
      ∧ (tick verbose opt_tasks T (samples k) st).1.total
          = spec_sum_from opt_tasks.toNat samples 6 (k + 1 - 6) % U64
      ∧ (tick verbose opt_tasks T (samples k) st).1.out
          = spec_out description verbose opt_tasks.toNat samples (k + 1)
            ++ (if (tick verbose opt_tasks T (samples k) st).2 = true then
                  [Line.average ((tick verbose opt_tasks T (samples k) st).1.total / to_u64 T)]
                else []) := by
  obtain ⟨hit, hprev, htot, hout⟩ := hinv
  obtain ⟨h1, h2, h3, h4, h5⟩ := tick_stats_eq verbose opt_tasks (samples k) st.prev
  have hd := diffs_eq_spec_deltas opt_tasks.toNat samples k st.prev hprev
  rw [hd] at h1 h2 h3
  have hw : wrap_int ((k : Int) + 1) = (k : Int) + 1 :=
    wrap_int_of_range _ (le_trans (by norm_num) (add_nonneg (Int.natCast_nonneg k) zero_le_one)) hk
  have hvl : (if verbose = true then
        (List.range opt_tasks.toNat).map
          (fun (i : Nat) => Line.worker (i : Int) ((samples k i + U64 - st.prev i) % U64))
      else [])
      = (if verbose = true then
        (List.range opt_tasks.toNat).map
          (fun (i : Nat) => Line.worker (i : Int) (spec_delta samples k i))
      else []) := by
    cases verbose
    · rfl
    · simp only [if_true]
      apply List.map_congr_left
      intro i hi
      rw [hprev i (List.mem_range.mp hi)]
      rfl
  rw [hvl] at h5
  have htotal : (if st.iterations > WARMUP_ITERATIONS then
        (st.total + (tick_stats verbose opt_tasks (samples k) st.prev).sum) % U64 else st.total)
      = spec_sum_from opt_tasks.toNat samples 6 (k + 1 - 6) % U64 := by
    rw [hit, htot, h1]
    unfold WARMUP_ITERATIONS
    by_cases h6 : 5 < k
    · obtain ⟨e, e2⟩ := sub_six_step k h6
      rw [if_pos ((int_gt_five k).mpr h6), e, spec_sum_from_succ, e2]
      unfold spec_tick_sum
      rw [Nat.mod_add_mod, Nat.add_mod_mod]
    · rw [if_neg (fun h => h6 ((int_gt_five k).mp h)), sub_six_stay k h6]
  have hout2 : (if st.iterations = WARMUP_ITERATIONS then
        st.out ++ (tick_stats verbose opt_tasks (samples k) st.prev).out
          ++ [Line.tick (tick_stats verbose opt_tasks (samples k) st.prev).min
                (tick_stats verbose opt_tasks (samples k) st.prev).max
                (tick_stats verbose opt_tasks (samples k) st.prev).sum] ++ [Line.measurement]
      else
        st.out ++ (tick_stats verbose opt_tasks (samples k) st.prev).out
          ++ [Line.tick (tick_stats verbose opt_tasks (samples k) st.prev).min
                (tick_stats verbose opt_tasks (samples k) st.prev).max
                (tick_stats verbose opt_tasks (samples k) st.prev).sum])
      = spec_out description verbose opt_tasks.toNat samples (k + 1) := by
    rw [hit, hout, h1, h2, h3, h5]
    unfold WARMUP_ITERATIONS
    simp only [spec_out, spec_tick_out, spec_tick_sum]
    by_cases h6 : k = 5
    · rw [if_pos ((int_eq_five k).mpr h6), if_pos h6]
      simp
    · rw [if_neg (fun h => h6 ((int_eq_five k).mp h)), if_neg h6]
      simp
  have hleave : (tick verbose opt_tasks T (samples k) st).2
      = decide (T ≠ 0 ∧ wrap_int (st.iterations + 1) > wrap_int (T + WARMUP_ITERATIONS)) := rfl
  refine ⟨?_, ?_, ?_, htotal, ?_⟩
  · rw [hleave, decide_eq_true_iff, hit, hw]
  · show wrap_int (st.iterations + 1) = _
    rw [hit, hw]
    push_cast
    rfl
  · intro i hi
    show (tick_stats verbose opt_tasks (samples k) st.prev).prev i = _
    rw [h4]
    simp [hi, spec_prev]
  · show (if (tick verbose opt_tasks T (samples k) st).2 = true then _ else _) = _
    rw [hout2]
    cases (tick verbose opt_tasks T (samples k) st).2
    · simp
    · simp only [if_true]
      rfl

/-! ## The measurement loop -/

theorem loop_start_inv (description : String) (verbose : Bool) (n : Nat)
    (samples : Nat → Nat → Nat) :
    LoopInv description verbose n samples 0 (loop_start description) := by
  constructor
  · rfl
  · intro i _
    rfl
  · simp [loop_start, spec_sum_from]
  · rfl

theorem measurement_loop_succ (verbose : Bool) (opt_tasks T : Int) (samples : Nat → Nat → Nat)
    (bail : Nat → Bool) (fuel k : Nat) (st : LoopState) (hb : bail k = false) :
    measurement_loop verbose opt_tasks T samples bail (fuel + 1) k st
      = if (tick verbose opt_tasks T (samples k) st).2 = true then
          ((tick verbose opt_tasks T (samples k) st).1, LoopExit.finished)
        else
          measurement_loop verbose opt_tasks T samples bail fuel (k + 1)
            (tick verbose opt_tasks T (samples k) st).1 := by
  rw [measurement_loop]
  simp only [hb, Bool.false_eq_true, if_false]
  rcases h : tick verbose opt_tasks T (samples k) st with ⟨st1, b⟩
  cases b <;> simp

/-- While the target is not reached and the stop flag is not set, the loop
keeps running and its state is the one described by `LoopInv`. -/
theorem loop_running (description : String) (verbose : Bool) (opt_tasks T : Int)
    (samples : Nat → Nat → Nat) (bail : Nat → Bool) :
    ∀ (fuel k : Nat) (st : LoopState),
      LoopInv description verbose opt_tasks.toNat samples k st →
      ((k + fuel : Nat) : Int) < 2 ^ 31 →
      (T = 0 ∨ ((k + fuel : Nat) : Int) ≤ wrap_int (T + WARMUP_ITERATIONS)) →
      (∀ j, k ≤ j → j < k + fuel → bail j = false) →
      (measurement_loop verbose opt_tasks T samples bail fuel k st).2 = LoopExit.running
        ∧ LoopInv description verbose opt_tasks.toNat samples (k + fuel)
            (measurement_loop verbose opt_tasks T samples bail fuel k st).1 := by
  intro fuel
  induction fuel with
  | zero =>
    intro k st hinv _ _ _
    exact ⟨rfl, hinv⟩
  | succ fuel ih =>
    intro k st hinv hr hT hb
    have hbk : bail k = false := hb k (le_refl _) (by omega)
    obtain ⟨h1, h2, h3, h4, h5⟩ :=
      tick_spec description verbose opt_tasks T samples k st hinv (by push_cast at hr ⊢; omega)
    have hnot : ¬ ((tick verbose opt_tasks T (samples k) st).2 = true) := by
      rw [h1]
      rintro ⟨hT0, hlt⟩
      rcases hT with hT | hT
      · exact hT0 hT
      · push_cast at hT
        omega
    rw [measurement_loop_succ _ _ _ _ _ _ _ _ hbk, if_neg hnot]
    have e : k + (fuel + 1) = (k + 1) + fuel := by omega
    rw [e]
    apply ih
    · refine ⟨h2, h3, h4, ?_⟩
      rw [h5, if_neg hnot]
      simp
    · rw [← e]; exact hr
    · rw [← e]; exact hT
    · intro j hj1 hj2
      exact hb j (by omega) (by omega)

theorem loop_add (verbose : Bool) (opt_tasks T : Int) (samples : Nat → Nat → Nat)
    (bail : Nat → Bool) :
    ∀ (a b k : Nat) (st : LoopState),
      (measurement_loop verbose opt_tasks T samples bail a k st).2 = LoopExit.running →
      measurement_loop verbose opt_tasks T samples bail (a + b) k st
        = measurement_loop verbose opt_tasks T samples bail b (k + a)
            (measurement_loop verbose opt_tasks T samples bail a k st).1 := by
  intro a
  induction a with
  | zero =>
    intro b k st _
    simp [measurement_loop]
  | succ a ih =>
    intro b k st h
    have e : a + 1 + b = (a + b) + 1 := by omega
    have e2 : k + 1 + a = k + (a + 1) := by omega
    rw [e]
    cases hb : bail k with
    | true =>
      rw [measurement_loop] at h
      simp [hb] at h
    | false =>
      rw [measurement_loop_succ verbose opt_tasks T samples bail a k st hb] at h ⊢
      rw [measurement_loop_succ verbose opt_tasks T samples bail (a + b) k st hb]
      by_cases hd : (tick verbose opt_tasks T (samples k) st).2 = true
      · rw [if_pos hd] at h
        simp at h
      · rw [if_neg hd] at h ⊢
        rw [if_neg hd, ih b (k + 1) _ h, e2]

theorem tick_out_extends (verbose : Bool) (opt_tasks T : Int) (results : Nat → Nat)
    (st : LoopState) : ∃ l, (tick verbose opt_tasks T results st).1.out = st.out ++ l := by
  show ∃ l, (if (tick verbose opt_tasks T results st).2 = true then _ else _) = st.out ++ l
  by_cases h1 : st.iterations = WARMUP_ITERATIONS <;>
    cases (tick verbose opt_tasks T results st).2 <;>
    simp only [h1, if_true, if_false, List.append_assoc, Bool.false_eq_true] <;>
    exact ⟨_, rfl⟩

theorem loop_out_extends (verbose : Bool) (opt_tasks T : Int) (samples : Nat → Nat → Nat)
    (bail : Nat → Bool) :
    ∀ (fuel k : Nat) (st : LoopState),
      ∃ l, (measurement_loop verbose opt_tasks T samples bail fuel k st).1.out = st.out ++ l := by
  intro fuel
  induction fuel with
  | zero =>
    intro k st
    exact ⟨[], by simp [measurement_loop]⟩
  | succ fuel ih =>
    intro k st
    cases hb : bail k with
    | true =>
      rw [measurement_loop]
      exact ⟨[], by simp [hb]⟩
    | false =>
      rw [measurement_loop_succ verbose opt_tasks T samples bail fuel k st hb]
      obtain ⟨l1, hl1⟩ := tick_out_extends verbose opt_tasks T (samples k) st
      by_cases hd : (tick verbose opt_tasks T (samples k) st).2 = true
      · rw [if_pos hd]
        exact ⟨l1, hl1⟩
      · rw [if_neg hd]
        obtain ⟨l2, hl2⟩ := ih (k + 1) (tick verbose opt_tasks T (samples k) st).1
        exact ⟨l1 ++ l2, by rw [hl2, hl1, List.append_assoc]⟩

/-- The state after `k` passes of a run that is neither stopped nor finished
before pass `k`. -/
theorem report_running (description : String) (verbose : Bool) (opt_tasks T : Int)
    (samples : Nat → Nat → Nat) (bail : Nat → Bool) (k : Nat)
    (hr : (k : Int) < 2 ^ 31)
    (hT : T = 0 ∨ (k : Int) ≤ wrap_int (T + WARMUP_ITERATIONS))
    (hb : ∀ j, j < k → bail j = false) :
    (report description verbose opt_tasks T samples bail k).2 = LoopExit.running
      ∧ LoopInv description verbose opt_tasks.toNat samples k
          (report description verbose opt_tasks T samples bail k).1 := by
  have h := loop_running description verbose opt_tasks T samples bail k 0 (loop_start description)
    (loop_start_inv description verbose opt_tasks.toNat samples)
    (by simpa using hr) (by simpa using hT) (fun j _ hj => hb j (by omega))
  simpa [report] using h

/-- An uninterrupted run with target `T > 0` ends in pass `T + 5`. -/
theorem report_finishes (description : String) (verbose : Bool) (opt_tasks : Int) (T : Nat)
    (samples : Nat → Nat → Nat) (bail : Nat → Bool) (fuel : Nat)
    (hT : 0 < T) (hrange : T + 6 < 2 ^ 31)
    (hbail : ∀ j, j ≤ T + 5 → bail j = false) (hfuel : T + 6 ≤ fuel) :
    (report description verbose opt_tasks (T : Int) samples bail fuel).2 = LoopExit.finished
      ∧ (report description verbose opt_tasks (T : Int) samples bail fuel).1.total
          = spec_sum_from opt_tasks.toNat samples 6 T % U64
      ∧ (report description verbose opt_tasks (T : Int) samples bail fuel).1.out
          = spec_out description verbose opt_tasks.toNat samples (T + 6)
            ++ [Line.average (spec_sum_from opt_tasks.toNat samples 6 T % U64 / T)] := by
  have hw : wrap_int ((T : Int) + WARMUP_ITERATIONS) = (T : Int) + 5 := by
    unfold WARMUP_ITERATIONS
    exact wrap_int_of_range _ (by omega) (by omega)
  obtain ⟨hrun, hinv⟩ := report_running description verbose opt_tasks (T : Int) samples bail
    (T + 5) (by push_cast; omega) (Or.inr (by rw [hw]; push_cast; omega))
    (fun j hj => hbail j (by omega))
  obtain ⟨extra, rfl⟩ : ∃ extra, fuel = (T + 5) + (extra + 1) := ⟨fuel - (T + 6), by omega⟩
  unfold report at hrun hinv ⊢
  rw [loop_add verbose opt_tasks (T : Int) samples bail (T + 5) (extra + 1) 0 _ hrun]
  rw [measurement_loop_succ _ _ _ _ _ _ _ _ (hbail _ (by omega))]
  obtain ⟨h1, _, _, h4, h5⟩ := tick_spec description verbose opt_tasks (T : Int) samples
    (0 + (T + 5)) _ (by simpa using hinv) (by push_cast; omega)
  have hdone : (tick verbose opt_tasks (T : Int) (samples (0 + (T + 5)))
      (measurement_loop verbose opt_tasks (T : Int) samples bail (T + 5) 0
        (loop_start description)).1).2 = true := by
    rw [h1, hw]
    refine ⟨by omega, by push_cast; omega⟩
  rw [if_pos hdone]
  have e : 0 + (T + 5) + 1 - 6 = T := by omega
  have e2 : 0 + (T + 5) + 1 = T + 6 := by omega
  rw [e] at h4
  rw [if_pos hdone, h4, e2, to_u64_natCast T (by omega)] at h5
  exact ⟨rfl, h4, h5⟩

theorem tick_lines_append (l1 l2 : List Line) :
    tick_lines (l1 ++ l2) = tick_lines l1 ++ tick_lines l2 := by
  unfold tick_lines
  rw [List.filter_append]

theorem tick_lines_workers (n : Nat) (f : Nat → Nat) :
    tick_lines ((List.range n).map (fun (i : Nat) => Line.worker (i : Int) (f i))) = [] := by
  unfold tick_lines
  rw [List.filter_eq_nil_iff]
  intro l hl
  obtain ⟨i, _, rfl⟩ := List.mem_map.mp hl
  simp

theorem tick_lines_spec_tick_out (verbose : Bool) (n : Nat) (samples : Nat → Nat → Nat)
    (k : Nat) : tick_lines (spec_tick_out verbose n samples k) = [spec_tick_line n samples k] := by
  unfold spec_tick_out
  rw [tick_lines_append, tick_lines_append]
  have h1 : tick_lines (if verbose = true then
      (List.range n).map (fun (i : Nat) => Line.worker (i : Int) (spec_delta samples k i))
      else []) = [] := by
    cases verbose
    · rfl
    · exact tick_lines_workers n _
  have h2 : tick_lines (if k = 5 then [Line.measurement] else []) = [] := by
    by_cases h : k = 5
    · rw [if_pos h]; rfl
    · rw [if_neg h]; rfl
  rw [h1, h2]
  rfl

theorem tick_lines_spec_out (description : String) (verbose : Bool) (n : Nat)
    (samples : Nat → Nat → Nat) (k : Nat) :
    tick_lines (spec_out description verbose n samples k)
      = (List.range k).map (spec_tick_line n samples) := by
  induction k with
  | zero => rfl
  | succ k ih =>
    rw [spec_out, tick_lines_append, ih, tick_lines_spec_tick_out, List.range_succ, List.map_append]
    rfl

/-- In a run that is neither stopped nor finished before pass `k`, the tick
line number `k` of the output is the tick line of tick `k`. -/
theorem tick_line_at (description : String) (verbose : Bool) (opt_tasks T : Int)
    (samples : Nat → Nat → Nat) (bail : Nat → Bool) (k fuel : Nat)
    (hk : (k : Int) + 1 < 2 ^ 31)
    (hT : T = 0 ∨ (k : Int) ≤ wrap_int (T + WARMUP_ITERATIONS))
    (hb : ∀ j, j ≤ k → bail j = false) (hfuel : k < fuel) :
    (tick_lines (report description verbose opt_tasks T samples bail fuel).1.out)[k]?
      = some (spec_tick_line opt_tasks.toNat samples k) := by
  obtain ⟨hrun, hinv⟩ := report_running description verbose opt_tasks T samples bail k
    (lt_trans (lt_add_one _) hk) hT (fun j hj => hb j (le_of_lt hj))
  obtain ⟨extra, rfl⟩ : ∃ extra, fuel = k + (extra + 1) := ⟨fuel - (k + 1), by omega⟩
  unfold report at hrun hinv ⊢
  rw [loop_add verbose opt_tasks T samples bail k (extra + 1) 0 _ hrun]
  rw [measurement_loop_succ _ _ _ _ _ _ _ _ (hb _ (by omega))]
  obtain ⟨_, _, _, _, h5⟩ := tick_spec description verbose opt_tasks T samples
    (0 + k) _ (by simpa using hinv) (by simpa using hk)
  have hpre : ∃ l, (if (tick verbose opt_tasks T (samples (0 + k))
        (measurement_loop verbose opt_tasks T samples bail k 0 (loop_start description)).1).2 = true
      then ((tick verbose opt_tasks T (samples (0 + k))
        (measurement_loop verbose opt_tasks T samples bail k 0 (loop_start description)).1).1,
          LoopExit.finished)
      else measurement_loop verbose opt_tasks T samples bail extra (0 + k + 1)
        (tick verbose opt_tasks T (samples (0 + k))
          (measurement_loop verbose opt_tasks T samples bail k 0 (loop_start description)).1).1).1.out
      = spec_out description verbose opt_tasks.toNat samples (0 + k + 1) ++ l := by
    split
    · exact ⟨_, h5⟩
    · obtain ⟨l, hl⟩ := loop_out_extends verbose opt_tasks T samples bail extra (0 + k + 1)
        (tick verbose opt_tasks T (samples (0 + k))
          (measurement_loop verbose opt_tasks T samples bail k 0 (loop_start description)).1).1
      rw [hl, h5, List.append_assoc]
      exact ⟨_, rfl⟩
  obtain ⟨l, hl⟩ := hpre
  rw [hl, tick_lines_append, tick_lines_spec_out]
  have e : 0 + k + 1 = k + 1 := by omega
  rw [e, List.getElem?_append_left (by simp), List.getElem?_map, List.getElem?_range (by omega)]
  rfl

/-! ## A counter that grows by a constant on every tick -/

theorem U64_eq : U64 = 18446744073709551616 := by
  norm_num [U64]

theorem u64_step (a c : Nat) : ((a + c) % U64 + U64 - a % U64) % U64 = c % U64 := by
  rw [U64_eq]
  omega

theorem const_spec_delta (c k i : Nat) :
    spec_delta (fun k _ => ((k + 1) * c) % U64) k i = c % U64 := by
  unfold spec_delta spec_prev
  cases k with
  | zero =>
    simp only [if_true, Nat.zero_add, Nat.one_mul, Nat.sub_zero]
    rw [Nat.add_mod_right, Nat.mod_mod]
  | succ k =>
    have e : (k + 1 + 1) * c = (k + 1) * c + c := Nat.succ_mul (k + 1) c
    simp only [Nat.add_sub_cancel, if_neg (Nat.succ_ne_zero k)]
    rw [e]
    exact u64_step _ _

theorem step_min_const (c : Nat) (hc : c < U64) : step_min ULLONG_MAX c = c := by
  unfold step_min ULLONG_MAX
  split
  · rfl
  · omega

theorem step_max_const (c : Nat) : step_max 0 c = c := by
  unfold step_max
  split
  · rfl
  · omega

theorem const_spec_deltas (c k : Nat) (hc : c < U64) :
    spec_deltas 1 (fun k _ => ((k + 1) * c) % U64) k = [c] := by
  unfold spec_deltas
  have h : List.range 1 = [0] := rfl
  rw [h]
  simp only [List.map_cons, List.map_nil]
  rw [const_spec_delta, Nat.mod_eq_of_lt hc]

theorem const_spec_tick_sum (c k : Nat) (hc : c < U64) :
    spec_tick_sum 1 (fun k _ => ((k + 1) * c) % U64) k = c := by
  unfold spec_tick_sum
  rw [const_spec_deltas c k hc]
  simp only [List.sum_cons, List.sum_nil, Nat.add_zero]
  exact Nat.mod_eq_of_lt hc

theorem const_spec_tick_out (c k : Nat) (hc : c < U64) :
    spec_tick_out false 1 (fun k _ => ((k + 1) * c) % U64) k
      = [Line.tick c c c] ++ (if k = 5 then [Line.measurement] else []) := by
  unfold spec_tick_out
  rw [const_spec_deltas c k hc, const_spec_tick_sum c k hc]
  simp only [List.foldl_cons, List.foldl_nil, step_min_const c hc, step_max_const c]
  rfl

theorem const_spec_out_warmup (description : String) (c : Nat) (hc : c < U64) :
    ∀ k, k ≤ 5 → spec_out description false 1 (fun k _ => ((k + 1) * c) % U64) k
      = [Line.testcase description, Line.warmup] ++ List.replicate k (Line.tick c c c) := by
  intro k
  induction k with
  | zero =>
    intro _
    rfl
  | succ k ih =>
    intro hk
    have hk5 : k ≠ 5 := by omega
    rw [spec_out, ih (by omega), const_spec_tick_out c k hc, if_neg hk5, List.replicate_succ']
    simp

theorem const_spec_out_measuring (description : String) (c : Nat) (hc : c < U64) :
    ∀ m, spec_out description false 1 (fun k _ => ((k + 1) * c) % U64) (6 + m)
      = [Line.testcase description, Line.warmup] ++ List.replicate 6 (Line.tick c c c)
        ++ [Line.measurement] ++ List.replicate m (Line.tick c c c) := by
  intro m
  induction m with
  | zero =>
    show spec_out description false 1 (fun k _ => ((k + 1) * c) % U64) (5 + 1) = _
    rw [spec_out, const_spec_out_warmup description c hc 5 (le_refl _), const_spec_tick_out c 5 hc,
      if_pos rfl]
    simp [List.replicate]
  | succ m ih =>
    have hk5 : 6 + m ≠ 5 := by omega
    show spec_out description false 1 (fun k _ => ((k + 1) * c) % U64) (6 + m + 1) = _
    rw [spec_out, ih, const_spec_tick_out c (6 + m) hc, if_neg hk5,
      List.replicate_succ' m (Line.tick c c c)]
    simp

theorem const_spec_sum_from (c first m : Nat) (hc : c < U64) :
    spec_sum_from 1 (fun k _ => ((k + 1) * c) % U64) first m = m * c := by
  unfold spec_sum_from
  have h : (fun j => spec_tick_sum 1 (fun k _ => ((k + 1) * c) % U64) (first + j))
      = fun _ => c := by
    funext j
    exact const_spec_tick_sum c (first + j) hc
  rw [h]
  simp

/-- How the loop stands after pass `k` of a run that is neither stopped nor
finished before pass `k`: it is left exactly when the target is reached. -/
theorem exit_after_pass (description : String) (verbose : Bool) (opt_tasks T : Int)
    (samples : Nat → Nat → Nat) (bail : Nat → Bool) (k : Nat)
    (hk : (k : Int) + 1 < 2 ^ 31)
    (hT : T = 0 ∨ (k : Int) ≤ wrap_int (T + WARMUP_ITERATIONS))
    (hb : ∀ j, j ≤ k → bail j = false) :
    (report description verbose opt_tasks T samples bail (k + 1)).2
      = if T ≠ 0 ∧ wrap_int (T + WARMUP_ITERATIONS) < (k : Int) + 1 then LoopExit.finished
        else LoopExit.running := by
  obtain ⟨hrun, hinv⟩ := report_running description verbose opt_tasks T samples bail k
    (lt_trans (lt_add_one _) hk) hT (fun j hj => hb j (le_of_lt hj))
  unfold report at hrun hinv ⊢
  rw [loop_add verbose opt_tasks T samples bail k 1 0 _ hrun]
  rw [measurement_loop_succ _ _ _ _ _ _ _ _ (hb _ (by omega))]
  obtain ⟨h1, _, _, _, _⟩ := tick_spec description verbose opt_tasks T samples
    (0 + k) _ (by simpa using hinv) (by simpa using hk)
  have e : ((0 + k : Nat) : Int) = (k : Int) := by simp
  rw [e] at h1
  by_cases hd : T ≠ 0 ∧ wrap_int (T + WARMUP_ITERATIONS) < (k : Int) + 1
  · rw [if_pos (h1.mpr hd), if_pos hd]
  · rw [if_neg (fun h => hd (h1.mp h)), if_neg hd]
    rfl

theorem spec_deltas_lt (n : Nat) (samples : Nat → Nat → Nat) (k : Nat) :
    ∀ d ∈ spec_deltas n samples k, d < U64 := by
  intro d hd
  obtain ⟨i, _, rfl⟩ := List.mem_map.mp hd
  exact Nat.mod_lt _ (by rw [U64_eq]; norm_num)

theorem spec_deltas_ne_nil (n : Nat) (samples : Nat → Nat → Nat) (k : Nat) (hn : 0 < n) :
    spec_deltas n samples k ≠ [] := by
  intro h
  have hl : (spec_deltas n samples k).length = n := by simp [spec_deltas]
  rw [h] at hl
  exact absurd hl.symm (Nat.pos_iff_ne_zero.mp hn)

theorem spec_delta_mem (n : Nat) (samples : Nat → Nat → Nat) (k i : Nat) (hi : i < n) :
    spec_delta samples k i ∈ spec_deltas n samples k :=
  List.mem_map.mpr ⟨i, List.mem_range.mpr hi, rfl⟩

theorem spec_deltas_four (samples : Nat → Nat → Nat) (k : Nat) :
    spec_deltas 4 samples k
      = [spec_delta samples k 0, spec_delta samples k 1, spec_delta samples k 2,
          spec_delta samples k 3] := rfl

theorem wrap_target (T : Int) (k : Nat) (h : (k : Int) ≤ T + 5) (h2 : T + 5 < 2 ^ 31) :
    (k : Int) ≤ wrap_int (T + WARMUP_ITERATIONS) := by
  unfold WARMUP_ITERATIONS
  rw [wrap_int_of_range _ (by omega) h2]
  exact h

theorem least_of_four (m a b c d : Nat) (hm : m = a ∨ m = b ∨ m = c ∨ m = d)
    (ha : m ≤ a) (hb : m ≤ b) (hc : m ≤ c) (hd : m ≤ d) : m = min (min a b) (min c d) := by
  omega

theorem greatest_of_four (m a b c d : Nat) (hm : m = a ∨ m = b ∨ m = c ∨ m = d)
    (ha : a ≤ m) (hb : b ≤ m) (hc : c ≤ m) (hd : d ≤ m) : m = max (max a b) (max c d) := by
  omega

/-! ## C1: the final average -/

/-- C1. For every target tick count `T > 0` (within the range of `int`) and all
counter samples, an uninterrupted run of the measurement loop ends by printing
the average: the sum of the tick sums of ticks `6 .. T + 5` (ticks numbered
from 0), accumulated modulo `2 ^ 64`, divided by `T` with integer division. -/
theorem final_average (description : String) (verbose : Bool) (opt_tasks : Int) (T : Nat)
    (samples : Nat → Nat → Nat) (bail : Nat → Bool) (fuel : Nat)
    (hT : 0 < T) (hrange : T + 6 < 2 ^ 31)
    (hbail : ∀ j, j ≤ T + 5 → bail j = false) (hfuel : T + 6 ≤ fuel) :
    (report description verbose opt_tasks (T : Int) samples bail fuel).2 = LoopExit.finished
      ∧ (report description verbose opt_tasks (T : Int) samples bail fuel).1.out.getLast?
          = some (Line.average
              ((((List.range T).map
                  (fun j => spec_tick_sum opt_tasks.toNat samples (6 + j))).sum % U64) / T)) := by
  obtain ⟨h1, _, h3⟩ :=
    report_finishes description verbose opt_tasks T samples bail fuel hT hrange hbail hfuel
  refine ⟨h1, ?_⟩
  rw [h3]
  simp [spec_sum_from]

/-- C1, at one worker counting 1000 per tick and a target of 3 ticks. -/
theorem final_average_witness :
    (report "vfsmix" false 1 ((3 : Nat) : Int) (fun k _ => (k + 1) * 1000) (fun _ => false) 9).2
        = LoopExit.finished
      ∧ (report "vfsmix" false 1 ((3 : Nat) : Int) (fun k _ => (k + 1) * 1000)
          (fun _ => false) 9).1.out.getLast?
          = some (Line.average
              ((((List.range 3).map
                  (fun j => spec_tick_sum (1 : Int).toNat (fun k _ => (k + 1) * 1000) (6 + j))).sum
                % U64) / 3)) :=
  final_average "vfsmix" false 1 3 (fun k _ => (k + 1) * 1000) (fun _ => false) 9
    (by decide) (by norm_num) (fun _ _ => rfl) (by decide)

/-! ## C2: what the accumulated total leaves out -/

/-- C2, as stated, fails: with one worker counting 1000 per tick and a target
of 3 ticks the run makes the nine ticks 0..8 and ends with a total that is not
the sum of the tick sums of the ticks after the fifth (ticks 5..8). -/
theorem warmup_excludes_five_counterexample :
    (report "vfsmix" false 1 3 (fun k _ => (k + 1) * 1000) (fun _ => false) 9).2
        = LoopExit.finished
      ∧ (report "vfsmix" false 1 3 (fun k _ => (k + 1) * 1000) (fun _ => false) 9).1.total = 3000
      ∧ spec_sum_from 1 (fun k _ => (k + 1) * 1000) 5 4 % U64 = 4000
      ∧ ¬ ((report "vfsmix" false 1 3 (fun k _ => (k + 1) * 1000) (fun _ => false) 9).1.total
            = spec_sum_from 1 (fun k _ => (k + 1) * 1000) 5 4 % U64) := by
  decide

/-- C2 (amended). After `k` passes of a run that is not stopped, with no target
or with a target `T` reached no earlier than in pass `k - 1`, the accumulated
total is the sum, modulo `2 ^ 64`, of the tick sums of the ticks `6 .. k - 1`:
it leaves out exactly the first 6 ticks (ticks 0..5) and no later tick.  For
`k = T + 6` this is the total the final average is computed from. -/
theorem warmup_excludes_six (description : String) (verbose : Bool) (opt_tasks : Int) (T : Nat)
    (samples : Nat → Nat → Nat) (bail : Nat → Bool) (k : Nat)
    (hk : k < 2 ^ 31) (hT : T = 0 ∨ (k ≤ T + 6 ∧ T + 6 < 2 ^ 31))
    (hb : ∀ j, j < k → bail j = false) :
    (report description verbose opt_tasks (T : Int) samples bail k).1.total
      = ((List.range (k - 6)).map
          (fun j => spec_tick_sum opt_tasks.toNat samples (6 + j))).sum % U64 := by
  show _ = spec_sum_from opt_tasks.toNat samples 6 (k - 6) % U64
  have hkI : (k : Int) < 2 ^ 31 := by exact_mod_cast hk
  by_cases h0 : T = 0
  · subst h0
    exact (report_running description verbose opt_tasks _ samples bail k hkI
      (Or.inl rfl) hb).2.total
  · rcases hT with hT | ⟨h1, h2⟩
    · exact absurd hT h0
    · have hw : wrap_int ((T : Int) + WARMUP_ITERATIONS) = (T : Int) + 5 := by
        unfold WARMUP_ITERATIONS
        exact wrap_int_of_range _ (by omega) (by omega)
      by_cases h5 : k ≤ T + 5
      · exact (report_running description verbose opt_tasks _ samples bail k hkI
          (Or.inr (by rw [hw]; omega)) hb).2.total
      · have e : k = T + 6 := by omega
        subst e
        have e2 : T + 6 - 6 = T := by omega
        rw [e2]
        exact (report_finishes description verbose opt_tasks T samples bail (T + 6)
          (by omega) h2 (fun j hj => hb j (by omega)) (le_refl _)).2.1

/-- C2 (amended), at one worker counting 1000 per tick, target 3, after 9 passes. -/
theorem warmup_excludes_six_witness :
    (report "vfsmix" false 1 ((3 : Nat) : Int) (fun k _ => (k + 1) * 1000)
        (fun _ => false) 9).1.total
      = ((List.range (9 - 6)).map
          (fun j => spec_tick_sum (1 : Int).toNat (fun k _ => (k + 1) * 1000) (6 + j))).sum % U64 :=
  warmup_excludes_six "vfsmix" false 1 3 (fun k _ => (k + 1) * 1000) (fun _ => false) 9
    (by norm_num) (Or.inr ⟨by decide, by norm_num⟩) (fun _ _ => rfl)

/-! ## C3: the output for one worker with a constant rate -/

/-- C3, as stated, fails at its own witness `c = 1000`, `T = 3`: the output is
not the header, 5 tick lines, `measurement`, 3 tick lines and the average. -/
theorem constant_rate_five_counterexample :
    ¬ ((report "vfsmix" false 1 3 (fun k _ => ((k + 1) * 1000) % U64) (fun _ => false) 9).1.out
        = [Line.testcase "vfsmix", Line.warmup]
          ++ List.replicate 5 (Line.tick 1000 1000 1000)
          ++ [Line.measurement]
          ++ List.replicate 3 (Line.tick 1000 1000 1000)
          ++ [Line.average 1000]) := by
  decide

/-- C3 (amended). For every target `T > 0` (within the range of `int`) and one
worker whose 64-bit counter grows by a constant `c` on every tick, with
`T * c < 2 ^ 64`, the output of an uninterrupted run is, in order: the testcase
line, the line `warmup`, exactly 6 tick lines `min:c max:c total:c`, the line
`measurement`, exactly `T` further such tick lines, and `average:c`; then the
loop is left. -/
theorem constant_rate_output (description : String) (c T : Nat) (bail : Nat → Bool) (fuel : Nat)
    (hT : 0 < T) (hrange : T + 6 < 2 ^ 31) (hc : T * c < 2 ^ 64)
    (hbail : ∀ j, j ≤ T + 5 → bail j = false) (hfuel : T + 6 ≤ fuel) :
    (report description false 1 (T : Int) (fun k _ => ((k + 1) * c) % U64) bail fuel).2
        = LoopExit.finished
      ∧ (report description false 1 (T : Int) (fun k _ => ((k + 1) * c) % U64) bail fuel).1.out
        = [Line.testcase description, Line.warmup]
          ++ List.replicate 6 (Line.tick c c c)
          ++ [Line.measurement]
          ++ List.replicate T (Line.tick c c c)
          ++ [Line.average c] := by
  have hTc : T * c < U64 := by rw [U64_eq]; exact lt_of_lt_of_eq hc (by norm_num)
  have hc1 : c < U64 := lt_of_le_of_lt (Nat.le_mul_of_pos_left c hT) hTc
  obtain ⟨h1, _, h3⟩ := report_finishes description false 1 T
    (fun k _ => ((k + 1) * c) % U64) bail fuel hT hrange hbail hfuel
  refine ⟨h1, ?_⟩
  have e1 : (1 : Int).toNat = 1 := rfl
  rw [h3, e1, const_spec_sum_from c 6 T hc1, Nat.mod_eq_of_lt hTc,
    Nat.mul_div_cancel_left c hT, Nat.add_comm T 6, const_spec_out_measuring description c hc1 T]

/-- C3 (amended), at `c = 1000` and `T = 3`. -/
theorem constant_rate_output_witness :
    (report "vfsmix" false 1 ((3 : Nat) : Int) (fun k _ => ((k + 1) * 1000) % U64)
        (fun _ => false) 9).2 = LoopExit.finished
      ∧ (report "vfsmix" false 1 ((3 : Nat) : Int) (fun k _ => ((k + 1) * 1000) % U64)
          (fun _ => false) 9).1.out
        = [Line.testcase "vfsmix", Line.warmup]
          ++ List.replicate 6 (Line.tick 1000 1000 1000)
          ++ [Line.measurement]
          ++ List.replicate 3 (Line.tick 1000 1000 1000)
          ++ [Line.average 1000] :=
  constant_rate_output "vfsmix" 1000 3 (fun _ => false) 9
    (by decide) (by norm_num) (by norm_num) (fun _ _ => rfl) (by decide)

/-- The text of the run of C3 at `c = 1000`, `T = 3`, as `printf` writes it. -/
theorem constant_rate_text :
    (report "vfsmix" false 1 3 (fun k _ => ((k + 1) * 1000) % U64) (fun _ => false) 9).1.out.map
        Line.render
      = ["testcase:vfsmix", "warmup",
          "min:1000 max:1000 total:1000", "min:1000 max:1000 total:1000",
          "min:1000 max:1000 total:1000", "min:1000 max:1000 total:1000",
          "min:1000 max:1000 total:1000", "min:1000 max:1000 total:1000",
          "measurement",
          "min:1000 max:1000 total:1000", "min:1000 max:1000 total:1000",
          "min:1000 max:1000 total:1000", "average:1000"] := by
  decide

/-! ## C4: the statistics of one tick -/

/-- C4. In every tick `k` of a run (one that is neither stopped nor finished
before that tick) with `N ≥ 1` workers, where the delta of worker `i` is its
sample minus its previous sample as a 64-bit difference (previous sample zero
before the first tick), the tick line reports as `min` the least delta, as
`max` the greatest delta and as `total` the sum of the deltas modulo `2 ^ 64`.
So with 4 workers whose deltas are the constant rates `r 0 .. r 3`, the line
reports the least rate, the greatest rate and the sum of the rates. -/
theorem tick_line_statistics (description : String) (verbose : Bool) (opt_tasks T : Int)
    (samples : Nat → Nat → Nat) (bail : Nat → Bool) (k fuel : Nat)
    (hN : 1 ≤ opt_tasks) (hk : (k : Int) + 1 < 2 ^ 31)
    (hT : T = 0 ∨ ((k : Int) ≤ T + 5 ∧ T + 5 < 2 ^ 31))
    (hb : ∀ j, j ≤ k → bail j = false) (hfuel : k < fuel) :
    ∃ mn mx tot,
      (tick_lines (report description verbose opt_tasks T samples bail fuel).1.out)[k]?
          = some (Line.tick mn mx tot)
        ∧ (mn ∈ spec_deltas opt_tasks.toNat samples k
            ∧ ∀ d ∈ spec_deltas opt_tasks.toNat samples k, mn ≤ d)
        ∧ (mx ∈ spec_deltas opt_tasks.toNat samples k
            ∧ ∀ d ∈ spec_deltas opt_tasks.toNat samples k, d ≤ mx)
        ∧ tot = (spec_deltas opt_tasks.toNat samples k).sum % U64
        ∧ (∀ i, spec_prev samples k i ≤ samples k i → samples k i < U64 →
            spec_delta samples k i = samples k i - spec_prev samples k i)
        ∧ (∀ r : Nat → Nat, opt_tasks = 4 → (∀ i, i < 4 → spec_delta samples k i = r i) →
            mn = min (min (r 0) (r 1)) (min (r 2) (r 3))
              ∧ mx = max (max (r 0) (r 1)) (max (r 2) (r 3))
              ∧ tot = (r 0 + r 1 + r 2 + r 3) % U64) := by
  have hT2 : T = 0 ∨ (k : Int) ≤ wrap_int (T + WARMUP_ITERATIONS) := by
    rcases hT with h | ⟨h1, h2⟩
    · exact Or.inl h
    · exact Or.inr (wrap_target T k h1 h2)
  have hline := tick_line_at description verbose opt_tasks T samples bail k fuel hk hT2 hb hfuel
  have hn : 0 < opt_tasks.toNat := by omega
  have hmin := foldl_step_min_least (spec_deltas opt_tasks.toNat samples k)
    (spec_deltas_ne_nil _ samples k hn) (spec_deltas_lt _ samples k)
  have hmax := foldl_step_max_greatest (spec_deltas opt_tasks.toNat samples k)
    (spec_deltas_ne_nil _ samples k hn)
  refine ⟨_, _, _, hline, hmin, hmax, rfl, ?_, ?_⟩
  · intro i h1 h2
    unfold spec_delta
    have h3 : samples k i + U64 - spec_prev samples k i
        = (samples k i - spec_prev samples k i) + U64 := by omega
    rw [h3, Nat.add_mod_right]
    exact Nat.mod_eq_of_lt (lt_of_le_of_lt (Nat.sub_le _ _) h2)
  · intro r h4 hr
    have e4 : opt_tasks.toNat = 4 := by rw [h4]; rfl
    rw [e4] at hmin hmax
    rw [e4, spec_deltas_four, hr 0 (by decide), hr 1 (by decide), hr 2 (by decide),
      hr 3 (by decide)] at *
    obtain ⟨hm1, hm2⟩ := hmin
    obtain ⟨hx1, hx2⟩ := hmax
    simp only [List.mem_cons, List.mem_singleton, List.not_mem_nil, or_false] at hm1 hx1
    refine ⟨?_, ?_, ?_⟩
    · exact least_of_four _ _ _ _ _ hm1 (hm2 _ (by simp)) (hm2 _ (by simp)) (hm2 _ (by simp))
        (hm2 _ (by simp))
    · exact greatest_of_four _ _ _ _ _ hx1 (hx2 _ (by simp)) (hx2 _ (by simp)) (hx2 _ (by simp))
        (hx2 _ (by simp))
    · unfold spec_tick_sum
      rw [spec_deltas_four, hr 0 (by decide), hr 1 (by decide), hr 2 (by decide),
        hr 3 (by decide)]
      simp [Nat.add_assoc]

/-- C4, at tick 2 of a run of 4 workers with the rates 10, 20, 30, 40. -/
theorem tick_line_statistics_witness :
    ∃ mn mx tot,
      (tick_lines (report "vfsmix" false 4 0 (fun k i => (k + 1) * ((i + 1) * 10))
          (fun _ => false) 5).1.out)[2]? = some (Line.tick mn mx tot)
        ∧ (mn ∈ spec_deltas (4 : Int).toNat (fun k i => (k + 1) * ((i + 1) * 10)) 2
            ∧ ∀ d ∈ spec_deltas (4 : Int).toNat (fun k i => (k + 1) * ((i + 1) * 10)) 2, mn ≤ d)
        ∧ (mx ∈ spec_deltas (4 : Int).toNat (fun k i => (k + 1) * ((i + 1) * 10)) 2
            ∧ ∀ d ∈ spec_deltas (4 : Int).toNat (fun k i => (k + 1) * ((i + 1) * 10)) 2, d ≤ mx)
        ∧ tot = (spec_deltas (4 : Int).toNat (fun k i => (k + 1) * ((i + 1) * 10)) 2).sum % U64
        ∧ (∀ i, spec_prev (fun k i => (k + 1) * ((i + 1) * 10)) 2 i
              ≤ (fun k i => (k + 1) * ((i + 1) * 10)) 2 i →
            (fun k i => (k + 1) * ((i + 1) * 10)) 2 i < U64 →
            spec_delta (fun k i => (k + 1) * ((i + 1) * 10)) 2 i
              = (fun k i => (k + 1) * ((i + 1) * 10)) 2 i
                - spec_prev (fun k i => (k + 1) * ((i + 1) * 10)) 2 i)
        ∧ (∀ r : Nat → Nat, (4 : Int) = 4 →
            (∀ i, i < 4 → spec_delta (fun k i => (k + 1) * ((i + 1) * 10)) 2 i = r i) →
            mn = min (min (r 0) (r 1)) (min (r 2) (r 3))
              ∧ mx = max (max (r 0) (r 1)) (max (r 2) (r 3))
              ∧ tot = (r 0 + r 1 + r 2 + r 3) % U64) :=
  tick_line_statistics "vfsmix" false 4 0 (fun k i => (k + 1) * ((i + 1) * 10)) (fun _ => false)
    2 5 (by decide) (by norm_num) (Or.inl rfl) (fun _ _ => rfl) (by decide)

/-! ## C6: a counter that goes backwards -/

/-- C6, as stated, fails: with one worker whose counter reads 10 and then 5,
the second pass is not aborted; it prints a tick line computed from the
wrapped difference `2 ^ 64 - 5` and the loop keeps running. -/
theorem negative_delta_counterexample :
    (report "vfsmix" false 1 0 (fun k _ => if k = 0 then 10 else 5) (fun _ => false) 2).2
        = LoopExit.running
      ∧ (report "vfsmix" false 1 0 (fun k _ => if k = 0 then 10 else 5) (fun _ => false) 2).1.out
        = [Line.testcase "vfsmix", Line.warmup, Line.tick 10 10 10,
            Line.tick 18446744073709551611 18446744073709551611 18446744073709551611] := by
  decide

/-- C6 (amended). When in tick `k` the counter of worker `i` is smaller than its
previous sample, the measurement loop does not detect it: the delta is the
64-bit difference `sample + 2 ^ 64 - previous`, it enters the tick line like
any other delta (`min` is at most it, `max` at least it, `total` is the sum of
all deltas modulo `2 ^ 64`), and after the pass the loop goes on or ends as the
target alone decides. -/
theorem negative_delta_wraps (description : String) (verbose : Bool) (opt_tasks T : Int)
    (samples : Nat → Nat → Nat) (bail : Nat → Bool) (k fuel i : Nat)
    (hi : (i : Int) < opt_tasks)
    (hlt : samples k i < spec_prev samples k i) (hprev : spec_prev samples k i < U64)
    (hk : (k : Int) + 1 < 2 ^ 31)
    (hT : T = 0 ∨ ((k : Int) ≤ T + 5 ∧ T + 5 < 2 ^ 31))
    (hb : ∀ j, j ≤ k → bail j = false) (hfuel : k < fuel) :
    spec_delta samples k i = samples k i + U64 - spec_prev samples k i
      ∧ (∃ mn mx tot,
          (tick_lines (report description verbose opt_tasks T samples bail fuel).1.out)[k]?
              = some (Line.tick mn mx tot)
            ∧ mn ≤ spec_delta samples k i
            ∧ spec_delta samples k i ≤ mx
            ∧ tot = (spec_deltas opt_tasks.toNat samples k).sum % U64)
      ∧ spec_delta samples k i ∈ spec_deltas opt_tasks.toNat samples k
      ∧ (report description verbose opt_tasks T samples bail (k + 1)).2
          = (if T ≠ 0 ∧ T + 5 < (k : Int) + 1 then LoopExit.finished else LoopExit.running) := by
  have hT2 : T = 0 ∨ (k : Int) ≤ wrap_int (T + WARMUP_ITERATIONS) := by
    rcases hT with h | ⟨h1, h2⟩
    · exact Or.inl h
    · exact Or.inr (wrap_target T k h1 h2)
  have hi2 : i < opt_tasks.toNat := by omega
  have hmem := spec_delta_mem opt_tasks.toNat samples k i hi2
  have hline := tick_line_at description verbose opt_tasks T samples bail k fuel hk hT2 hb hfuel
  have hexit := exit_after_pass description verbose opt_tasks T samples bail k hk hT2 hb
  refine ⟨?_, ⟨_, _, _, hline, foldl_step_min_le _ _ _ hmem, foldl_step_max_ge _ _ _ hmem, rfl⟩,
    hmem, ?_⟩
  · unfold spec_delta
    apply Nat.mod_eq_of_lt
    clear hline hexit hmem hT2 hT hk
    omega
  · rw [hexit]
    rcases hT with h | ⟨h1, h2⟩
    · rw [if_neg (fun hc => hc.1 h), if_neg (fun hc => hc.1 h)]
    · have hw : wrap_int (T + WARMUP_ITERATIONS) = T + 5 := by
        unfold WARMUP_ITERATIONS
        exact wrap_int_of_range _ (by omega) h2
      rw [hw]

/-- C6 (amended), at one worker whose counter reads 10 and then 5. -/
theorem negative_delta_wraps_witness :
    spec_delta (fun k _ => if k = 0 then 10 else 5) 1 0
        = (fun k (_ : Nat) => if k = 0 then 10 else 5) 1 0 + U64
          - spec_prev (fun k _ => if k = 0 then 10 else 5) 1 0
      ∧ (∃ mn mx tot,
          (tick_lines (report "vfsmix" false 1 0 (fun k _ => if k = 0 then 10 else 5)
              (fun _ => false) 2).1.out)[1]? = some (Line.tick mn mx tot)
            ∧ mn ≤ spec_delta (fun k _ => if k = 0 then 10 else 5) 1 0
            ∧ spec_delta (fun k _ => if k = 0 then 10 else 5) 1 0 ≤ mx
            ∧ tot = (spec_deltas (1 : Int).toNat
                (fun k _ => if k = 0 then 10 else 5) 1).sum % U64)
      ∧ spec_delta (fun k _ => if k = 0 then 10 else 5) 1 0
          ∈ spec_deltas (1 : Int).toNat (fun k _ => if k = 0 then 10 else 5) 1
      ∧ (report "vfsmix" false 1 0 (fun k _ => if k = 0 then 10 else 5)
          (fun _ => false) (1 + 1)).2
          = (if (0 : Int) ≠ 0 ∧ (0 : Int) + 5 < ((1 : Nat) : Int) + 1 then LoopExit.finished
              else LoopExit.running) :=
  negative_delta_wraps "vfsmix" false 1 0 (fun k _ => if k = 0 then 10 else 5) (fun _ => false)
    1 2 0 (by decide) (by decide) (by decide) (by norm_num) (Or.inl rfl) (fun _ _ => rfl)
    (by decide)

/-! ## C8: the shared area and the counter slots -/

theorem land_mask (x e : Nat) (hx : x < 2 ^ 64) (he : e ≤ 64) :
    x &&& (2 ^ 64 - 2 ^ e) = x / 2 ^ e * 2 ^ e := by
  have hpos : 0 < 2 ^ e := Nat.pow_pos (by decide)
  have hle : 2 ^ e ≤ 2 ^ 64 := Nat.pow_le_pow_right (by decide) he
  have hm : 2 ^ 64 - 2 ^ e = 2 ^ 64 - ((2 ^ e - 1) + 1) := by
    rw [Nat.sub_add_cancel hpos]
  have hlt : 2 ^ e - 1 < 2 ^ 64 := lt_of_lt_of_le (Nat.sub_lt hpos (by decide)) hle
  apply Nat.eq_of_testBit_eq
  intro i
  rw [Nat.testBit_and, hm, Nat.testBit_two_pow_sub_succ hlt, Nat.testBit_two_pow_sub_one,
    Nat.mul_comm, Nat.testBit_mul_pow_two, ← Nat.shiftRight_eq_div_pow, Nat.testBit_shiftRight]
  by_cases h1 : i < e
  · simp [h1]
  · have h2 : e + (i - e) = i := by omega
    have h3 : i ≥ e := by omega
    rw [h2]
    by_cases h4 : i < 64
    · simp [h1, h3, h4]
    · have h5 : x.testBit i = false :=
        Nat.testBit_lt_two_pow (lt_of_lt_of_le hx (Nat.pow_le_pow_right (by decide) (by omega)))
      simp [h5]

theorem to_u64_neg (P : Nat) (h1 : 0 < P) (h2 : P ≤ 2 ^ 64) :
    to_u64 (-((P : Int) - 1) - 1) = 2 ^ 64 - P := by
  unfold to_u64
  omega

theorem wrap_int_pred (P : Nat) (h1 : 0 < P) (h2 : P < 2 ^ 31) :
    wrap_int ((P : Int) - 1) = (P : Int) - 1 := by
  unfold wrap_int
  omega

theorem u64_add_sub_one (size P : Nat) (h1 : 0 < P) (h2 : size + P < 2 ^ 64) :
    ((size + P) % U64 + U64 - 1) % U64 = size + P - 1 := by
  rw [U64_eq]
  omega

theorem align_to_page_pow (size e : Nat) (he : e ≤ 30) (hs : size + 2 ^ e < 2 ^ 64) :
    align_to_page size ((2 ^ e : Nat) : Int) = (size + 2 ^ e - 1) / 2 ^ e * 2 ^ e := by
  have hpos : 0 < 2 ^ e := Nat.pow_pos (by decide)
  have hP : 2 ^ e ≤ 2 ^ 30 := Nat.pow_le_pow_right (by decide) he
  unfold align_to_page
  rw [wrap_int_pred (2 ^ e) hpos (by omega), to_u64_neg (2 ^ e) hpos (by omega),
    to_u64_natCast (2 ^ e) (by omega), u64_add_sub_one size (2 ^ e) hpos hs]
  exact land_mask _ e (by omega) (by omega)

theorem round_up_bounds (size P : Nat) (hP : 0 < P) :
    P ∣ (size + P - 1) / P * P ∧ size ≤ (size + P - 1) / P * P
      ∧ (size + P - 1) / P * P < size + P := by
  have h1 := Nat.div_add_mod (size + P - 1) P
  have h2 := Nat.mod_lt (size + P - 1) hP
  have h3 : (size + P - 1) / P * P = P * ((size + P - 1) / P) := Nat.mul_comm _ _
  refine ⟨Dvd.intro_left _ rfl, ?_, ?_⟩ <;> omega

theorem requested_size_eq (N : Nat) (hN : N ≤ 2048) : requested_size (N : Int) = N * 256 := by
  unfold requested_size MAX_CACHELINE_SIZE
  rw [wrap_int_of_range _ (by omega) (by omega)]
  unfold to_u64
  omega

theorem slot_offset_eq (i : Nat) (hi : i ≤ 2048) : slot_offset (i : Int) = (i : Int) * 256 := by
  unfold slot_offset MAX_CACHELINE_SIZE
  exact wrap_int_of_range _ (by omega) (by omega)

theorem lines_apart (x c a b : Nat) (hx : 8 ∣ x) (hc : c ≤ 8) (ha : a < 8) (hb : b < 8) :
    (x + a) / 2 ^ c ≠ (x + 256 + b) / 2 ^ c := by
  obtain ⟨y, rfl⟩ := hx
  interval_cases c <;> norm_num <;> omega

/-- C8. For every worker count `N` in 1..2048 and every power-of-two page size
(an `int`, so at most `2 ^ 30`), the byte size of the shared area is `N * 256`
rounded up to the next multiple of the page size (a multiple of the page size,
at least `N * 256`, less than `N * 256 + page size`); the counter slots are at
the byte offsets `i * 256`, each an 8-byte range inside the area, pairwise
disjoint, 256 bytes apart; and for an 8-byte aligned base address no byte of
slot `i` lies in the same cache line as a byte of slot `i + 1`, for every
power-of-two cache line size up to 256 bytes. -/
theorem shared_area_slots (N e : Nat) (hN1 : 1 ≤ N) (hN2 : N ≤ 2048) (he : e ≤ 30) :
    (2 ^ e ∣ shared_area_size (N : Int) ((2 ^ e : Nat) : Int)
        ∧ N * 256 ≤ shared_area_size (N : Int) ((2 ^ e : Nat) : Int)
        ∧ shared_area_size (N : Int) ((2 ^ e : Nat) : Int) < N * 256 + 2 ^ e)
      ∧ (∀ i : Nat, i < N →
          slot_offset (i : Int) = (i : Int) * 256
            ∧ 0 ≤ slot_offset (i : Int)
            ∧ slot_offset (i : Int) + COUNTER_SIZE
                ≤ (shared_area_size (N : Int) ((2 ^ e : Nat) : Int) : Int))
      ∧ (∀ i j : Nat, i < N → j < N → i ≠ j →
          slot_offset (i : Int) + COUNTER_SIZE ≤ slot_offset (j : Int)
            ∨ slot_offset (j : Int) + COUNTER_SIZE ≤ slot_offset (i : Int))
      ∧ (∀ i : Nat, i + 1 < N →
          slot_offset ((i + 1 : Nat) : Int) = slot_offset (i : Int) + 256)
      ∧ (∀ base c i a b : Nat, 8 ∣ base → c ≤ 8 → i + 1 < N → a < 8 → b < 8 →
          (base + (slot_offset (i : Int)).toNat + a) / 2 ^ c
            ≠ (base + (slot_offset ((i + 1 : Nat) : Int)).toNat + b) / 2 ^ c) := by
  have hP : 2 ^ e ≤ 2 ^ 30 := Nat.pow_le_pow_right (by decide) he
  have hpos : 0 < 2 ^ e := Nat.pow_pos (by decide)
  have hsz : shared_area_size (N : Int) ((2 ^ e : Nat) : Int)
      = (N * 256 + 2 ^ e - 1) / 2 ^ e * 2 ^ e := by
    unfold shared_area_size
    rw [requested_size_eq N hN2]
    exact align_to_page_pow _ e he (by omega)
  obtain ⟨hb1, hb2, hb3⟩ := round_up_bounds (N * 256) (2 ^ e) hpos
  rw [← hsz] at hb1 hb2 hb3
  refine ⟨⟨hb1, hb2, hb3⟩, ?_, ?_, ?_, ?_⟩
  · intro i hi
    rw [slot_offset_eq i (by omega)]
    unfold COUNTER_SIZE
    refine ⟨rfl, by omega, ?_⟩
    omega
  · intro i j hi hj hij
    rw [slot_offset_eq i (by omega), slot_offset_eq j (by omega)]
    unfold COUNTER_SIZE
    omega
  · intro i hi
    rw [slot_offset_eq i (by omega), slot_offset_eq (i + 1) (by omega)]
    push_cast
    ring
  · intro base c i a b hbase hc hi ha hb
    rw [slot_offset_eq i (by omega), slot_offset_eq (i + 1) (by omega)]
    have e1 : ((i : Int) * 256).toNat = i * 256 := by omega
    have e2 : (((i + 1 : Nat) : Int) * 256).toNat = i * 256 + 256 := by omega
    rw [e1, e2]
    have hx : 8 ∣ base + i * 256 := by omega
    have h := lines_apart (base + i * 256) c a b hx hc ha hb
    rw [← Nat.add_assoc]
    exact h

/-- C8, at 3 workers and a page size of 4096 bytes. -/
theorem shared_area_slots_witness :
    (2 ^ 12 ∣ shared_area_size ((3 : Nat) : Int) ((2 ^ 12 : Nat) : Int)
        ∧ 3 * 256 ≤ shared_area_size ((3 : Nat) : Int) ((2 ^ 12 : Nat) : Int)
        ∧ shared_area_size ((3 : Nat) : Int) ((2 ^ 12 : Nat) : Int) < 3 * 256 + 2 ^ 12)
      ∧ (∀ i : Nat, i < 3 →
          slot_offset (i : Int) = (i : Int) * 256
            ∧ 0 ≤ slot_offset (i : Int)
            ∧ slot_offset (i : Int) + COUNTER_SIZE
                ≤ (shared_area_size ((3 : Nat) : Int) ((2 ^ 12 : Nat) : Int) : Int))
      ∧ (∀ i j : Nat, i < 3 → j < 3 → i ≠ j →
          slot_offset (i : Int) + COUNTER_SIZE ≤ slot_offset (j : Int)
            ∨ slot_offset (j : Int) + COUNTER_SIZE ≤ slot_offset (i : Int))
      ∧ (∀ i : Nat, i + 1 < 3 →
          slot_offset ((i + 1 : Nat) : Int) = slot_offset (i : Int) + 256)
      ∧ (∀ base c i a b : Nat, 8 ∣ base → c ≤ 8 → i + 1 < 3 → a < 8 → b < 8 →
          (base + (slot_offset (i : Int)).toNat + a) / 2 ^ c
            ≠ (base + (slot_offset ((i + 1 : Nat) : Int)).toNat + b) / 2 ^ c) :=
  shared_area_slots 3 12 (by decide) (by decide) (by decide)

/-! ## The launch phase of `main` -/

theorem spawn_worker_ok (env : Env) (o : Options) (hok : env.setup_succeeds o) (i : Nat) :
    spawn_worker env o i
      = ([Event.new_task_affinity (worker_args i) (worker_unit env o i)], none) := by
  unfold spawn_worker
  simp only [hok.topology_dup i, hok.bitmap_dup i, hok.bitmap_alloc i, hok.get_cpubind i,
    hok.set_cpubind i, hok.task_fork i, hok.restore_cpubind i, Bool.and_false,
    Bool.false_eq_true, if_false, ite_self]

theorem spawn_workers_ok (env : Env) (o : Options) (hok : env.setup_succeeds o) :
    ∀ l : List Nat, spawn_workers env o l
      = (l.map (fun i => Event.new_task_affinity (worker_args i) (worker_unit env o i)), none) := by
  intro l
  induction l with
  | nil => rfl
  | cons i rest ih =>
    rw [spawn_workers, spawn_worker_ok env o hok i]
    simp only [ih, List.map_cons, List.singleton_append]

theorem filter_prints (l : List Line) :
    (l.map Event.print).filter is_launch_event = [] := by
  rw [List.filter_eq_nil_iff]
  intro e he
  obtain ⟨x, _, rfl⟩ := List.mem_map.mp he
  simp [is_launch_event]

theorem filter_spawns (env : Env) (o : Options) (l : List Nat) :
    (l.map (fun i => Event.new_task_affinity (worker_args i) (worker_unit env o i))).filter
        is_launch_event
      = l.map (fun i => Event.new_task_affinity (worker_args i) (worker_unit env o i)) := by
  rw [List.filter_eq_self]
  intro e he
  obtain ⟨x, _, rfl⟩ := List.mem_map.mp he
  rfl

/-- When no setup step fails, the launch events of lines 379-525 are the
creations of the workers in index order followed by one barrier write. -/
theorem launch_and_measure_ok (env : Env) (o : Options) (hok : env.setup_succeeds o) :
    (launch_and_measure env o).1.filter is_launch_event
      = (List.range o.opt_tasks.toNat).map
          (fun i => Event.new_task_affinity (worker_args i) (worker_unit env o i))
        ++ [Event.barrier_write] := by
  have h0 : (env.HAVE_HWLOC && decide (env.nbobjs = 0)) = false := by
    cases hh : env.HAVE_HWLOC with
    | false => rfl
    | true =>
      have h := hok.nbobjs hh
      have h2 : ¬ env.nbobjs = 0 := by omega
      simp [h2]
  have h1 : (env.HAVE_HWLOC && decide (env.nbobjs < 1)) = false := by
    cases hh : env.HAVE_HWLOC with
    | false => rfl
    | true =>
      have h := hok.nbobjs hh
      have h2 : ¬ env.nbobjs < 1 := by omega
      simp [h2]
  unfold launch_and_measure
  simp only [h0, h1, hok.malloc, hok.write, spawn_workers_ok env o hok, Bool.false_eq_true,
    if_false]
  cases (report env.description o.verbose o.opt_tasks o.opt_iterations env.samples
      env.interrupted env.fuel).2 <;> cases env.THREADS <;>
    simp [List.filter_append, filter_prints, filter_spawns, is_launch_event]

theorem worker_args_eq (i : Nat) (hi : i ≤ 2048) :
    worker_args i = { arg1 := (i : Int) * 256, arg2 := (i : Int) } := by
  unfold worker_args
  rw [slot_offset_eq i hi]

theorem trampoline_waits (args : Args) (polls : Nat → Int × Bool) :
    ∀ (m fuel j0 : Nat), (∀ j, j < m → polls (j0 + j) = (-1, true)) →
      ¬ ((polls (j0 + m)).1 = -1 ∧ (polls (j0 + m)).2 = true) → m < fuel →
      testcase_trampoline args polls fuel j0
        = List.replicate m (WorkerEvent.poll (-1) true)
          ++ [WorkerEvent.poll (polls (j0 + m)).1 (polls (j0 + m)).2,
              WorkerEvent.workload args.arg1 args.arg2] := by
  intro m
  induction m with
  | zero =>
    intro fuel j0 _ hret hfuel
    obtain ⟨f, rfl⟩ : ∃ f, fuel = f + 1 := ⟨fuel - 1, by omega⟩
    rw [testcase_trampoline]
    rw [Nat.add_zero] at hret
    rw [if_neg hret]
    rfl
  | succ m ih =>
    intro fuel j0 hint hret hfuel
    obtain ⟨f, rfl⟩ : ∃ f, fuel = f + 1 := ⟨fuel - 1, by omega⟩
    have h0 : polls j0 = (-1, true) := by
      have h := hint 0 (by omega)
      rwa [Nat.add_zero] at h
    have e : j0 + (m + 1) = j0 + 1 + m := by omega
    rw [testcase_trampoline, h0, if_pos ⟨rfl, rfl⟩, e]
    rw [e] at hret
    rw [ih f (j0 + 1) (fun j hj => by
      have h := hint (j + 1) (by omega)
      have e2 : j0 + (j + 1) = j0 + 1 + j := by omega
      rwa [e2] at h) hret (by omega)]
    rfl

/-- On a run in which no setup step fails, the launch events of `main` are
the creations of the workers in index order followed by one barrier write. -/
theorem main_launch_events (env : Env) (opts : List Opt) (o : Options) (N : Nat)
    (hparse : parse_options Options.initial opts = Except.ok o)
    (hN : o.opt_tasks = (N : Int)) (hok : env.setup_succeeds o) :
    (main env opts).events.filter is_launch_event
      = (List.range N).map
          (fun i => Event.new_task_affinity (worker_args i) (worker_unit env o i))
        ++ [Event.barrier_write] := by
  have hl := launch_and_measure_ok env o hok
  have hn : o.opt_tasks.toNat = N := by omega
  rw [hn] at hl
  have harea : (env.mkstemp_fails || env.ftruncate_fails || env.mmap_fails) = false := by
    rw [hok.mkstemp, hok.ftruncate, hok.mmap]
    rfl
  unfold main
  simp only [hparse, hok.extra_args, hok.flags, harea, hok.pipe, hok.fork, Bool.false_eq_true,
    if_false]
  cases hth : env.THREADS with
  | false =>
    simp only [Bool.false_eq_true, if_false, List.filter_append, hl]
    simp [is_launch_event]
  | true =>
    simp only [if_true]
    cases hst : (launch_and_measure env o).2 <;>
      simp only [List.filter_append, hl] <;>
      simp [is_launch_event]

/-! ## C9: the hardware unit of a worker -/

theorem unit_index_eq (i n : Nat) : unit_index (i : Int) (n : Int) = ((i % n : Nat) : Int) := by
  unfold unit_index
  rw [Int.tmod_eq_emod (Int.natCast_nonneg i) (Int.natCast_nonneg n)]
  norm_cast

theorem floor_or_ceil (N n : Nat) (hn : 0 < n) (b : Nat) (hb : b = 0 ∨ (b = 1 ∧ 0 < N % n)) :
    N / n + b = N / n ∨ N / n + b = (N + n - 1) / n := by
  rcases hb with h | ⟨h, hpos⟩
  · left
    omega
  · right
    subst h
    have h1 := Nat.div_add_mod N n
    have h2 := Nat.mod_lt N hn
    have h3 : N + n - 1 = (n - 1 + N % n) + n * (N / n) := by omega
    have h4 : (n - 1 + N % n) / n = 1 := by
      apply Nat.div_eq_of_lt_le <;> omega
    rw [h3, Nat.add_mul_div_left _ _ hn, h4]
    omega

theorem count_units (n N u : Nat) (hn : 0 < n) (hu : u < n) :
    List.count (some (u : Int))
        ((List.range N).map (fun (i : Nat) => some ((i % n : Nat) : Int)))
      = N / n + if u < N % n then 1 else 0 := by
  have h := Nat.count_modEq_card N hn u
  rw [Nat.mod_eq_of_lt hu] at h
  rw [← h, List.count_eq_countP, List.countP_map]
  unfold Nat.count
  apply List.countP_congr
  intro i _
  simp only [Function.comp, beq_iff_eq, decide_eq_true_eq, Nat.ModEq, Nat.mod_eq_of_lt hu,
    Option.some.injEq]
  norm_cast

theorem nodup_units (n N : Nat) (hN : N ≤ n) :
    ((List.range N).map (fun (i : Nat) => some ((i % n : Nat) : Int))).Nodup := by
  apply List.Nodup.map_on _ (List.nodup_range N)
  intro x hx y hy hxy
  have hx1 : x < n := lt_of_lt_of_le (List.mem_range.mp hx) hN
  have hy1 : y < n := lt_of_lt_of_le (List.mem_range.mp hy) hN
  have h : x % n = y % n := by exact_mod_cast Option.some.inj hxy
  rwa [Nat.mod_eq_of_lt hx1, Nat.mod_eq_of_lt hy1] at h

theorem creations_filter (l : List Event) :
    creations (l.filter is_launch_event) = creations l := by
  induction l with
  | nil => rfl
  | cons ev rest ih =>
    cases ev <;> simp [creations, List.filter, is_launch_event, List.filterMap_cons] at ih ⊢ <;>
      exact ih

theorem creations_spawns (env : Env) (o : Options) (l : List Nat) :
    creations (l.map (fun i => Event.new_task_affinity (worker_args i) (worker_unit env o i))
        ++ [Event.barrier_write])
      = l.map (fun (i : Nat) => ((i : Int), worker_unit env o i)) := by
  induction l with
  | nil => rfl
  | cons i rest ih =>
    simp only [creations, List.map_cons, List.cons_append, List.filterMap_cons] at ih ⊢
    rw [ih]
    rfl

/-- C9. For every unit count `n > 0`, in a run of `main` with hwloc and
affinity in use in which no setup step fails, the workers that `main` creates
are the workers `0 .. N - 1` and worker `i` is bound to the unit `i mod n`, a
valid unit index; so all workers are bound to distinct units when `N ≤ n`, and
in general every unit receives `floor (N / n)` or `ceil (N / n)` workers (one
more than the floor exactly for the units below `N mod n`). -/
theorem unit_round_robin (env : Env) (opts : List Opt) (o : Options) (N n : Nat)
    (hparse : parse_options Options.initial opts = Except.ok o)
    (hN : o.opt_tasks = (N : Int)) (hN2 : N ≤ 2048) (hok : env.setup_succeeds o)
    (hhw : env.HAVE_HWLOC = true) (haff : o.use_affinity = true)
    (hn : env.nbobjs = (n : Int)) :
    0 < n
      ∧ creations (main env opts).events
          = (List.range N).map (fun (i : Nat) => ((i : Int), some ((i % n : Nat) : Int)))
      ∧ (∀ i : Nat, unit_index (i : Int) env.nbobjs = ((i % n : Nat) : Int)
          ∧ 0 ≤ unit_index (i : Int) env.nbobjs ∧ unit_index (i : Int) env.nbobjs < (n : Int))
      ∧ (N ≤ n → ((creations (main env opts).events).map Prod.snd).Nodup)
      ∧ (∀ u : Nat, u < n →
          List.count (some (u : Int)) ((creations (main env opts).events).map Prod.snd)
            = N / n + (if u < N % n then 1 else 0)
          ∧ (List.count (some (u : Int)) ((creations (main env opts).events).map Prod.snd)
                = N / n
              ∨ List.count (some (u : Int)) ((creations (main env opts).events).map Prod.snd)
                = (N + n - 1) / n)) := by
  have hn0 : 0 < n := by
    have h := hok.nbobjs hhw
    omega
  have hunit : ∀ i : Nat, worker_unit env o i = some ((i % n : Nat) : Int) := by
    intro i
    unfold worker_unit
    rw [hhw, haff, hn, unit_index_eq]
    rfl
  have hcre : creations (main env opts).events
      = (List.range N).map (fun (i : Nat) => ((i : Int), some ((i % n : Nat) : Int))) := by
    rw [← creations_filter, main_launch_events env opts o N hparse hN hok, creations_spawns]
    apply List.map_congr_left
    intro i _
    rw [hunit i]
  have hsnd : (creations (main env opts).events).map Prod.snd
      = (List.range N).map (fun (i : Nat) => some ((i % n : Nat) : Int)) := by
    rw [hcre, List.map_map]
    rfl
  refine ⟨hn0, hcre, ?_, ?_, ?_⟩
  · intro i
    rw [hn, unit_index_eq]
    have h := Nat.mod_lt i hn0
    refine ⟨rfl, Int.natCast_nonneg _, ?_⟩
    exact_mod_cast h
  · intro hle
    rw [hsnd]
    exact nodup_units n N hle
  · intro u hu
    rw [hsnd, count_units n N u hn0 hu]
    refine ⟨rfl, ?_⟩
    apply floor_or_ceil N n hn0
    by_cases h : u < N % n
    · right
      rw [if_pos h]
      exact ⟨rfl, by omega⟩
    · left
      rw [if_neg h]

/-- C9, at `-t 5` in the process build with hwloc and 2 units. -/
theorem unit_round_robin_witness :
    0 < 2
      ∧ creations (main (Env.quiet false true 2 (fun _ _ => 0) 0) [Opt.t 5]).events
          = (List.range 5).map (fun (i : Nat) => ((i : Int), some ((i % 2 : Nat) : Int)))
      ∧ (∀ i : Nat,
          unit_index (i : Int) (Env.quiet false true 2 (fun _ _ => 0) 0).nbobjs
              = ((i % 2 : Nat) : Int)
          ∧ 0 ≤ unit_index (i : Int) (Env.quiet false true 2 (fun _ _ => 0) 0).nbobjs
          ∧ unit_index (i : Int) (Env.quiet false true 2 (fun _ _ => 0) 0).nbobjs
              < ((2 : Nat) : Int))
      ∧ (5 ≤ 2 →
          ((creations (main (Env.quiet false true 2 (fun _ _ => 0) 0) [Opt.t 5]).events).map
            Prod.snd).Nodup)
      ∧ (∀ u : Nat, u < 2 →
          List.count (some (u : Int))
              ((creations (main (Env.quiet false true 2 (fun _ _ => 0) 0) [Opt.t 5]).events).map
                Prod.snd)
            = 5 / 2 + (if u < 5 % 2 then 1 else 0)
          ∧ (List.count (some (u : Int))
                ((creations
                  (main (Env.quiet false true 2 (fun _ _ => 0) 0) [Opt.t 5]).events).map
                  Prod.snd) = 5 / 2
              ∨ List.count (some (u : Int))
                ((creations
                  (main (Env.quiet false true 2 (fun _ _ => 0) 0) [Opt.t 5]).events).map
                  Prod.snd) = (5 + 2 - 1) / 2)) :=
  unit_round_robin (Env.quiet false true 2 (fun _ _ => 0) 0) [Opt.t 5]
    { Options.initial with opt_tasks := 5 } 5 2 rfl rfl (by decide)
    { extra_args := rfl, flags := rfl, mkstemp := rfl, ftruncate := rfl, mmap := rfl,
      pipe := rfl, fork := rfl, nbobjs := fun _ => by decide, malloc := rfl,
      topology_dup := fun _ => rfl, bitmap_dup := fun _ => rfl, bitmap_alloc := fun _ => rfl,
      get_cpubind := fun _ => rfl, set_cpubind := fun _ => rfl, task_fork := fun _ => rfl,
      restore_cpubind := fun _ => rfl, write := rfl }
    rfl rfl rfl

/-! ## C5: the check of the worker count -/

theorem check_tasks_code (N : Int) (c : Nat) (h : check_tasks N = some c) : c = 1 := by
  unfold check_tasks at h
  split at h
  · exact (Option.some.inj h).symm
  · split at h
    · exact (Option.some.inj h).symm
    · exact absurd h (by simp)

/-- Thread build: once the controller is forked, the invoking process never
ends with exit code 1, whatever happens in the controller. -/
theorem thread_build_status (env : Env) (opts : List Opt) (o : Options)
    (hparse : parse_options Options.initial opts = Except.ok o)
    (hthreads : env.THREADS = true) (hargs : env.extra_args = false)
    (hflags : (o.smt_affinity && !o.use_affinity) = false)
    (harea : (env.mkstemp_fails || env.ftruncate_fails || env.mmap_fails) = false)
    (hpipe : env.pipe_fails = false) (hfork : env.fork_fails = false) :
    (main env opts).controller = some (launch_and_measure env o).2
      ∧ ((main env opts).status = Status.running ∨ (main env opts).status = Status.exited 0) := by
  unfold main
  simp only [hparse, hthreads, hargs, hflags, harea, hpipe, hfork, if_true, if_false,
    Bool.false_eq_true]
  cases h : (launch_and_measure env o).2 with
  | running => exact ⟨rfl, Or.inl rfl⟩
  | exited code => exact ⟨rfl, Or.inr rfl⟩
  | killed => exact ⟨rfl, Or.inr rfl⟩

theorem parse_options_code (opts : List Opt) :
    ∀ (o : Options) (c : Nat), parse_options o opts = Except.error c → c = 1 := by
  induction opts with
  | nil =>
    intro o c h
    simp [parse_options] at h
  | cons a rest ih =>
    intro o c h
    cases a with
    | m => exact ih _ c h
    | t arg =>
      simp only [parse_options] at h
      cases hc : check_tasks arg with
      | none =>
        rw [hc] at h
        exact ih _ c h
      | some c1 =>
        rw [hc] at h
        have e : c1 = c := by
          simpa using h
        rw [← e]
        exact check_tasks_code arg c1 hc
    | s arg => exact ih _ c h
    | v => exact ih _ c h
    | n => exact ih _ c h
    | other =>
      have e : 1 = c := by
        simpa [parse_options] using h
      exact e.symm

theorem spawn_workers_code (env : Env) (o : Options) :
    ∀ (l : List Nat) (c : Nat), (spawn_workers env o l).2 = some c → c = 1 := by
  intro l
  induction l with
  | nil =>
    intro c h
    simp [spawn_workers] at h
  | cons i rest ih =>
    intro c h
    rw [spawn_workers] at h
    have hw : ∀ c1, (spawn_worker env o i).2 = some c1 → c1 = 1 := by
      intro c1 h1
      unfold spawn_worker at h1
      repeat' split at h1
      all_goals first
        | exact (Option.some.inj h1).symm
        | exact absurd h1 (by simp)
    rcases hs : spawn_worker env o i with ⟨ev, r⟩
    rw [hs] at h hw
    cases r with
    | none => exact ih c h
    | some c1 =>
      have e : c1 = c := by
        simpa using h
      rw [← e]
      exact hw c1 rfl

/-- Lines 379-525 end with exit code 1 when topology discovery finds no unit,
when `malloc` fails, or when the barrier write fails. -/
theorem launch_fails (env : Env) (o : Options)
    (h : (env.HAVE_HWLOC = true ∧ env.nbobjs < 1) ∨ env.malloc_fails = true
      ∨ env.write_fails = true) :
    (launch_and_measure env o).2 = Status.exited 1 := by
  unfold launch_and_measure
  split
  · rfl
  · split
    · rfl
    · split
      · rfl
      · rename_i h0 h1 h2
        have hw : env.write_fails = true := by
          rcases h with ⟨ha, hb⟩ | h | h
          · exact absurd (by simp [ha, hb]) h1
          · exact absurd h h2
          · exact h
        rcases hs : spawn_workers env o (List.range o.opt_tasks.toNat) with ⟨ev, r⟩
        cases r with
        | none => simp [hw]
        | some c =>
          have hc := spawn_workers_code env o _ c (by rw [hs])
          simp [hc]

/-- Process build: the invoking process ends with exit code 1 whenever a
configuration check, the allocation of the shared area, of the pipe or of the
argument memory, topology discovery or the barrier write fails. -/
theorem process_build_exit_one (env : Env) (opts : List Opt) (hT : env.THREADS = false)
    (h : env.extra_args = true
      ∨ (env.mkstemp_fails || env.ftruncate_fails || env.mmap_fails) = true
      ∨ env.pipe_fails = true
      ∨ (env.HAVE_HWLOC = true ∧ env.nbobjs < 1) ∨ env.malloc_fails = true
      ∨ env.write_fails = true) :
    (main env opts).status = Status.exited 1 := by
  unfold main
  cases hp : parse_options Options.initial opts with
  | error c =>
    rw [parse_options_code opts _ c hp]
  | ok o =>
    simp only [hT, Bool.false_eq_true, if_false]
    split
    · rfl
    · split
      · rfl
      · split
        · rfl
        · split
          · rfl
          · rename_i h1 h2 h3 h4
            apply launch_fails
            rcases h with h | h | h | h
            · exact absurd h h1
            · exact absurd h h3
            · exact absurd h h4
            · exact h

/-- C7, at a failing input: the thread build with hwloc on a host where the
topology has no unit.  Topology discovery fails in the forked controller, which
returns 1, but the invoking process ends with exit code 0; in the process build
the same failure gives exit code 1. -/
theorem thread_build_loses_exit_code :
    (main (Env.quiet true true 0 (fun _ _ => 0) 0) []).controller = some (Status.exited 1)
      ∧ (main (Env.quiet true true 0 (fun _ _ => 0) 0) []).status = Status.exited 0
      ∧ (main (Env.quiet false true 0 (fun _ _ => 0) 0) []).status = Status.exited 1 := by
  decide

/-! ## C10: the launch phase and the start barrier -/

/-- C10. For every accepted worker count `N`, on a run in which no setup step
fails, the launch events of `main` are, in order, the creations of the
workers `0 .. N - 1`, the `i`-th one wired to worker index `i` and to the
counter slot at offset `i * 256`, followed by exactly one barrier write: no
barrier write precedes a creation.  And each worker calls the workload, with
its slot and index, only after a call of `poll` on the barrier has returned
(calls interrupted by a signal are repeated). -/
theorem launch_order (env : Env) (opts : List Opt) (o : Options) (N : Nat)
    (hparse : parse_options Options.initial opts = Except.ok o)
    (hN : o.opt_tasks = (N : Int)) (hN2 : N ≤ 2048) (hok : env.setup_succeeds o) :
    (main env opts).events.filter is_launch_event
        = (List.range N).map
            (fun (i : Nat) =>
              Event.new_task_affinity { arg1 := (i : Int) * 256, arg2 := (i : Int) }
              (worker_unit env o i))
          ++ [Event.barrier_write]
      ∧ (∀ (i : Nat) (polls : Nat → Int × Bool) (m fuel : Nat), i < N →
          (∀ j, j < m → polls j = (-1, true)) →
          ¬ ((polls m).1 = -1 ∧ (polls m).2 = true) → m < fuel →
          testcase_trampoline (worker_args i) polls fuel 0
            = List.replicate m (WorkerEvent.poll (-1) true)
              ++ [WorkerEvent.poll (polls m).1 (polls m).2,
                  WorkerEvent.workload ((i : Int) * 256) (i : Int)]) := by
  constructor
  · have hmap : (List.range N).map
          (fun i => Event.new_task_affinity (worker_args i) (worker_unit env o i))
        = (List.range N).map
          (fun (i : Nat) =>
              Event.new_task_affinity { arg1 := (i : Int) * 256, arg2 := (i : Int) }
            (worker_unit env o i)) := by
      apply List.map_congr_left
      intro i hi
      rw [worker_args_eq i (by have := List.mem_range.mp hi; omega)]
    rw [main_launch_events env opts o N hparse hN hok, hmap]
  · intro i polls m fuel hi hint hret hfuel
    have h := trampoline_waits (worker_args i) polls m fuel 0
      (fun j hj => by rw [Nat.zero_add]; exact hint j hj)
      (by rw [Nat.zero_add]; exact hret) hfuel
    rw [Nat.zero_add] at h
    rw [h, worker_args_eq i (by omega)]

/-- C10, at `-t 3` in the process build with hwloc and 2 units. -/
theorem launch_order_witness :
    (main (Env.quiet false true 2 (fun _ _ => 0) 0) [Opt.t 3]).events.filter is_launch_event
        = (List.range 3).map
            (fun (i : Nat) =>
              Event.new_task_affinity { arg1 := (i : Int) * 256, arg2 := (i : Int) }
              (worker_unit (Env.quiet false true 2 (fun _ _ => 0) 0)
                { Options.initial with opt_tasks := 3 } i))
          ++ [Event.barrier_write]
      ∧ (∀ (i : Nat) (polls : Nat → Int × Bool) (m fuel : Nat), i < 3 →
          (∀ j, j < m → polls j = (-1, true)) →
          ¬ ((polls m).1 = -1 ∧ (polls m).2 = true) → m < fuel →
          testcase_trampoline (worker_args i) polls fuel 0
            = List.replicate m (WorkerEvent.poll (-1) true)
              ++ [WorkerEvent.poll (polls m).1 (polls m).2,
                  WorkerEvent.workload ((i : Int) * 256) (i : Int)]) :=
  launch_order (Env.quiet false true 2 (fun _ _ => 0) 0) [Opt.t 3]
    { Options.initial with opt_tasks := 3 } 3 rfl rfl (by decide)
    { extra_args := rfl, flags := rfl, mkstemp := rfl, ftruncate := rfl, mmap := rfl,
      pipe := rfl, fork := rfl, nbobjs := fun _ => by decide, malloc := rfl,
      topology_dup := fun _ => rfl, bitmap_dup := fun _ => rfl, bitmap_alloc := fun _ => rfl,
      get_cpubind := fun _ => rfl, set_cpubind := fun _ => rfl, task_fork := fun _ => rfl,
      restore_cpubind := fun _ => rfl, write := rfl }

end WillItScale
